import Mathlib

/-!
# Verification of the lifeahtlas temporal simulation engines

Shallow embedding of the pure calculation modules (longevity engine,
financial projection engine, debt payoff engine, scenario diff engine,
timeline coordinate conversion) and proofs/refutations of the frozen
specification claims.

Numbers: the TypeScript source computes with IEEE doubles; the embedding
idealizes arithmetic as exact rationals (`ℚ`), except where the source
uses `Math.sqrt`, which is embedded as `Real.sqrt`.  `Math.round x` is
embedded as `⌊x + 1/2⌋` (JavaScript rounds half-up), `Math.floor` as
`Int.floor`.
-/

unseal Rat.mul Rat.add Rat.sub Rat.inv Rat.ofScientific

set_option maxRecDepth 10000

/-- JavaScript `Math.round`: round half-up, i.e. `⌊x + 1/2⌋`. -/
def jround (x : ℚ) : ℤ := ⌊x + 1/2⌋

namespace Longevity

/-- The two sexes supported by the longevity engine. -/
inductive Sex
  | male
  | female
deriving DecidableEq

open Sex

/-- `LIFE_TABLE_QX_MALE` from `longevity-engine.ts`: (age, qx) pairs. -/
def LIFE_TABLE_QX_MALE : List (ℚ × ℚ) :=
  [(0, 0.00600), (1, 0.00040), (5, 0.00015), (10, 0.00012),
   (15, 0.00060), (20, 0.00130), (25, 0.00160), (30, 0.00170),
   (35, 0.00200), (40, 0.00250), (45, 0.00380), (50, 0.00580),
   (55, 0.00900), (60, 0.01350), (65, 0.01900), (70, 0.02700),
   (75, 0.04200), (80, 0.06700), (85, 0.10500), (90, 0.16500),
   (95, 0.25000), (100, 0.38000), (105, 0.50000), (110, 1.0)]

/-- `LIFE_TABLE_QX_FEMALE` from `longevity-engine.ts`. -/
def LIFE_TABLE_QX_FEMALE : List (ℚ × ℚ) :=
  [(0, 0.00500), (1, 0.00035), (5, 0.00012), (10, 0.00010),
   (15, 0.00030), (20, 0.00050), (25, 0.00060), (30, 0.00070),
   (35, 0.00090), (40, 0.00140), (45, 0.00220), (50, 0.00350),
   (55, 0.00550), (60, 0.00850), (65, 0.01250), (70, 0.01900),
   (75, 0.03100), (80, 0.05200), (85, 0.08800), (90, 0.14500),
   (95, 0.22000), (100, 0.35000), (105, 0.48000), (110, 1.0)]

/-- The scanning loop of `interpolateQx`: walk consecutive table pairs,
returning the linear interpolation on the bracketing segment, and the
given default (the last table rate) if no segment brackets `age`. -/
def interpScan (age : ℚ) (dflt : ℚ) : List (ℚ × ℚ) → ℚ
  | (a0, q0) :: (a1, q1) :: rest =>
      if a0 ≤ age ∧ age < a1 then q0 + (age - a0) / (a1 - a0) * (q1 - q0)
      else interpScan age dflt ((a1, q1) :: rest)
  | _ => dflt

/-- `interpolateQx` from `longevity-engine.ts`: clamp below the first and
at/above the last breakpoint, otherwise linearly interpolate. -/
def interpolateQx (table : List (ℚ × ℚ)) (age : ℚ) : ℚ :=
  match table with
  | [] => 0
  | (a0, q0) :: _ =>
      if age ≤ a0 then q0
      else
        let last := table.getLastD (0, 0)
        if last.1 ≤ age then last.2
        else interpScan age last.2 table

/-- Mortality table selected by sex (`sex === 'male' ? MALE : FEMALE`). -/
def tableOf : Sex → List (ℚ × ℚ)
  | male => LIFE_TABLE_QX_MALE
  | female => LIFE_TABLE_QX_FEMALE

/-- A point of the survival curve (`SurvivalPoint`). -/
structure SurvivalPoint where
  age : ℤ
  probability : ℚ
deriving DecidableEq

/-- The loop body of `computeSurvivalCurve`: starting from integer `age`
with survival `s`, emit `n` successive points, multiplying the survival
by `1 - qx` after each. -/
def survivalGo (table : List (ℚ × ℚ)) : ℕ → ℤ → ℚ → List SurvivalPoint
  | 0, _, _ => []
  | n + 1, age, s =>
      ⟨age, s⟩ :: survivalGo table n (age + 1) (s * (1 - interpolateQx table (age : ℚ)))

/-- `computeSurvivalCurve(currentAge, sex, maxAge = 110)`: points from
`⌊currentAge⌋` to `maxAge` inclusive, starting at probability 1. -/
def computeSurvivalCurve (currentAge : ℚ) (sex : Sex) (maxAge : ℤ := 110) :
    List SurvivalPoint :=
  survivalGo (tableOf sex) (maxAge - ⌊currentAge⌋ + 1).toNat ⌊currentAge⌋ 1

/-- Trapezoidal sum of consecutive survival probabilities
(the loop of `lifeExpectancyAtAge`). -/
def trapSum : List SurvivalPoint → ℚ
  | p :: q :: rest => (p.probability + q.probability) / 2 + trapSum (q :: rest)
  | _ => 0

/-- `lifeExpectancyAtAge`: trapezoidal integral of the survival curve,
rounded to one decimal. -/
def lifeExpectancyAtAge (currentAge : ℚ) (sex : Sex) : ℚ :=
  (jround (trapSum (computeSurvivalCurve currentAge sex) * 10) : ℚ) / 10

/-- `LongevityPercentiles` record. -/
structure LongevityPercentiles where
  p25 : ℚ
  p50 : ℚ
  p75 : ℚ
  p90 : ℚ
deriving DecidableEq

/-- The scanning loop of `findAge` inside `computePercentiles`: find the
first curve point whose probability is `≤ target` and linearly
interpolate the crossing age between it and its predecessor, rounding to
one decimal; `none` if no point crosses. -/
def findAgeGo (target : ℚ) : SurvivalPoint → List SurvivalPoint → Option ℚ
  | _, [] => none
  | prev, curr :: rest =>
      if curr.probability ≤ target then
        some ((jround (((prev.age : ℚ) +
          (prev.probability - target) / (prev.probability - curr.probability) *
            ((curr.age : ℚ) - (prev.age : ℚ))) * 10) : ℚ) / 10)
      else findAgeGo target curr rest

/-- `findAge` of `computePercentiles`, with the source's fallback
`curve[curve.length - 1].age`; `none` models the TypeError thrown when
the curve is empty (the fallback then indexes `curve[-1]`). -/
def findAge (curve : List SurvivalPoint) (target : ℚ) : Option ℚ :=
  match curve with
  | [] => none
  | p :: rest =>
      match findAgeGo target p rest with
      | some a => some a
      | none => some ((curve.getLastD ⟨0, 0⟩).age : ℚ)

/-- `computePercentiles(currentAge, sex)`; `none` exactly when the
survival curve is empty (the source then throws). -/
def computePercentiles (currentAge : ℚ) (sex : Sex) : Option LongevityPercentiles :=
  let curve := computeSurvivalCurve currentAge sex
  match findAge curve 0.75, findAge curve 0.50, findAge curve 0.25, findAge curve 0.10 with
  | some a, some b, some c, some d => some ⟨a, b, c, d⟩
  | _, _, _, _ => none

/-- `genderFactor` of `computeCareNeedsCurve` (1.15 for women). -/
def genderFactor : Sex → ℚ
  | female => 1.15
  | male => 1

/-- The raw (pre-normalization) care-level weights of
`computeCareNeedsCurve` at an integer age:
(independent, light, moderate, full). -/
def careRaw (age : ℤ) (sex : Sex) : ℚ × ℚ × ℚ × ℚ :=
  let g := genderFactor sex
  if age < 60 then
    (0.95, 0.03, 0.015, 0.005)
  else if age < 70 then
    let t : ℚ := ((age : ℚ) - 60) / 10
    (0.95 - t * 0.12 * g, 0.03 + t * 0.06 * g, 0.015 + t * 0.04 * g, 0.005 + t * 0.02 * g)
  else if age < 80 then
    let t : ℚ := ((age : ℚ) - 70) / 10
    ((0.83 - t * 0.25) * (2 - g), 0.09 + t * 0.10 * g, 0.055 + t * 0.10 * g,
      0.025 + t * 0.05 * g)
  else if age < 90 then
    let t : ℚ := ((age : ℚ) - 80) / 10
    ((0.58 - t * 0.30) * (2 - g), 0.19 + t * 0.05, 0.155 + t * 0.15 * g,
      0.075 + t * 0.10 * g)
  else
    let t : ℚ := min (((age : ℚ) - 90) / 10) 1
    (max (0.28 - t * 0.20) 0.05, 0.24 - t * 0.05, 0.305 + t * 0.05, 0.175 + t * 0.20)

/-- `CareNeedsProbability` record (percentages rounded to one decimal). -/
structure CareNeedsProbability where
  age : ℤ
  independentLiving : ℚ
  lightAssistance : ℚ
  moderateAssistance : ℚ
  fullCare : ℚ
deriving DecidableEq

/-- One age point of `computeCareNeedsCurve`: normalize the four raw
weights to percentages and round each to one decimal. -/
def carePoint (age : ℤ) (sex : Sex) : CareNeedsProbability :=
  let r := careRaw age sex
  let total := r.1 + r.2.1 + r.2.2.1 + r.2.2.2
  ⟨age,
    (jround (r.1 / total * 1000) : ℚ) / 10,
    (jround (r.2.1 / total * 1000) : ℚ) / 10,
    (jround (r.2.2.1 / total * 1000) : ℚ) / 10,
    (jround (r.2.2.2 / total * 1000) : ℚ) / 10⟩

/-- `computeCareNeedsCurve(startAge, sex)`: one point per integer age
from `⌊startAge⌋` to 100. -/
def computeCareNeedsCurve (startAge : ℚ) (sex : Sex) : List CareNeedsProbability :=
  (List.range (100 - ⌊startAge⌋ + 1).toNat).map fun i : ℕ =>
    carePoint (⌊startAge⌋ + (i : ℤ)) sex

/-! ## Fast evaluation layer

The survival-curve computations above recompute a full product chain per
start age, which is too slow to check age by age inside the kernel.  The
following functions compute the same quantities in a single pass over
the age axis; bridging lemmas below prove them equal to the source-shaped
definitions. -/

/-- Product `∏ (1 - qx)` over `n` successive integer ages from `age`. -/
def prodQ (table : List (ℚ × ℚ)) : ℤ → ℕ → ℚ
  | _, 0 => 1
  | age, n + 1 => (1 - interpolateQx table (age : ℚ)) * prodQ table (age + 1) n

/-- Backward recurrence for the trapezoidal life-expectancy sum:
`survTrap tbl n age` equals `trapSum` of the (n+1)-point survival curve
started at `age` with probability 1. -/
def survTrap (table : List (ℚ × ℚ)) : ℕ → ℤ → ℚ
  | 0, _ => 0
  | n + 1, age =>
      (1 + (1 - interpolateQx table (age : ℚ))) / 2 +
        (1 - interpolateQx table (age : ℚ)) * survTrap table n (age + 1)

/-- Scale a survival point's probability by `c`. -/
def scalePt (c : ℚ) (p : SurvivalPoint) : SurvivalPoint :=
  ⟨p.age, c * p.probability⟩

/-- The interpolated crossing value shared by `pctGo` and `pct4Go`. -/
def pctVal (base t : ℚ) (prev curr : SurvivalPoint) : ℚ :=
  (jround (((prev.age : ℚ) +
    (prev.probability - t * base) / (prev.probability - curr.probability) *
      ((curr.age : ℚ) - (prev.age : ℚ))) * 10) : ℚ) / 10

/-- `findAgeGo` against a curve whose probabilities are all scaled by
`base`: the crossing condition and interpolation ratio are expressed in
terms of the unscaled global curve. -/
def pctGo (base t : ℚ) : SurvivalPoint → List SurvivalPoint → Option ℚ
  | _, [] => none
  | prev, curr :: rest =>
      if curr.probability ≤ t * base then some (pctVal base t prev curr)
      else pctGo base t curr rest

/-- Single-pass checker for claim C6's comparison: walking ages downward
from 110, maintain the life-expectancy sums `tf`, `tm` of both sexes and
check `jround (10*tm) < jround (10*tf)` at every age `≤ 102`. -/
def c6Go : ℚ → ℚ → ℕ → ℤ → Bool
  | _, _, 0, _ => true
  | tf, tm, n + 1, age =>
      (decide (102 < age) || decide (jround (tm * 10) < jround (tf * 10))) &&
      c6Go ((1 + (1 - interpolateQx LIFE_TABLE_QX_FEMALE ((age - 1 : ℤ) : ℚ))) / 2 +
              (1 - interpolateQx LIFE_TABLE_QX_FEMALE ((age - 1 : ℤ) : ℚ)) * tf)
           ((1 + (1 - interpolateQx LIFE_TABLE_QX_MALE ((age - 1 : ℤ) : ℚ))) / 2 +
              (1 - interpolateQx LIFE_TABLE_QX_MALE ((age - 1 : ℤ) : ℚ)) * tm)
           n (age - 1)

/-- At a fixed curve position, emit crossing values for the maximal
prefix of (descending) targets satisfied by `curr`, returning the
emitted values and the remaining targets. -/
def emitAt (base : ℚ) (prev curr : SurvivalPoint) : List ℚ → List (Option ℚ) × List ℚ
  | [] => ([], [])
  | t :: ts =>
      if curr.probability ≤ t * base then
        let r := emitAt base prev curr ts
        (some (pctVal base t prev curr) :: r.1, r.2)
      else ([], t :: ts)

/-- Multi-target version of `pctGo`: scan once, resolving a descending
list of targets in order; a point that fails the largest remaining
target also fails all smaller ones, so the position only advances. -/
def pct4Go (base : ℚ) : SurvivalPoint → List SurvivalPoint → List ℚ → List (Option ℚ)
  | _, [], ts => ts.map fun _ => none
  | prev, curr :: rest, ts =>
      let r := emitAt base prev curr ts
      r.1 ++ pct4Go base curr rest r.2

/-- Strict-ordering test of four optional percentile values, with the
curve's last age as fallback for a missed crossing. -/
def ordered4 (lastAge : ℚ) : List (Option ℚ) → Bool
  | [x, y, z, w] =>
      decide (x.getD lastAge < y.getD lastAge) &&
      decide (y.getD lastAge < z.getD lastAge) &&
      decide (z.getD lastAge < w.getD lastAge)
  | _ => false

/-- Single-pass checker for claim C2's ordering: walk the suffixes of a
global survival curve; at each start age `≤ 109` find the four percentile
crossings by rescaled targets and check their strict ordering. -/
def c2Go (lastAge : ℚ) : List SurvivalPoint → Bool
  | [] => true
  | p :: rest =>
      (decide (109 < p.age) ||
        ordered4 lastAge (pct4Go p.probability p rest [0.75, 0.50, 0.25, 0.10])) &&
      c2Go lastAge rest

end Longevity


namespace Timeline

/-- date-fns `differenceInDays` on millisecond timestamps: the number of
whole days between the two instants, truncated toward zero. -/
def differenceInDays (a b : ℤ) : ℤ := (a - b).tdiv 86400000

/-- `dateToPixel(date, origin, pixelsPerDay)` from the layout module. -/
def dateToPixel (date origin : ℤ) (pixelsPerDay : ℚ) : ℚ :=
  (differenceInDays date origin : ℚ) * pixelsPerDay

/-- `pixelToDate(px, origin, pixelsPerDay)`: round the day offset and
add whole days (86 400 000 ms each) to the origin. -/
def pixelToDate (px : ℚ) (origin : ℤ) (pixelsPerDay : ℚ) : ℤ :=
  origin + jround (px / pixelsPerDay) * 86400000

end Timeline

namespace Scenario

/-- `MonthlyProjection` record: month label (as a month index) and the
rounded currency outputs. -/
structure MonthlyProjection where
  month : ℤ
  totalIncome : ℤ
  totalExpenses : ℤ
  netCashflow : ℤ
  netWorth : ℤ
  netWorthLow : ℤ
  netWorthHigh : ℤ
deriving DecidableEq

/-- `StressScore` record (all sub-scores rounded to integers). -/
structure StressScore where
  month : ℤ
  composite : ℤ
  freeTime : ℤ
  financialSurplus : ℤ
  overlapCount : ℤ
  caregivingLoad : ℤ
  sleepProxy : ℤ
  emotionalLoad : ℤ
deriving DecidableEq

/-- `getPeakStress` from `stress-engine.ts` (reduce keeping the first
maximum). -/
def getPeakStress : List StressScore → Option StressScore
  | [] => none
  | h :: t => some (t.foldl (fun peak s => if s.composite > peak.composite then s else peak) h)

/-- `getRedZoneMonths` from `stress-engine.ts`. -/
def getRedZoneMonths (scores : List StressScore) (threshold : ℤ := 70) : ℕ :=
  (scores.filter fun s => decide (threshold ≤ s.composite)).length

/-- `getMinimumFreeTime` from `stress-engine.ts` (`Math.min` over
`100 - freeTime`, 100 for an empty list). -/
def getMinimumFreeTime : List StressScore → ℤ
  | [] => 100
  | h :: t => (t.map fun s => 100 - s.freeTime).foldl min (100 - h.freeTime)

/-- The worst-month reduce of `computeScenarioDiff` (most negative
cashflow, first on ties). -/
def findWorst : List MonthlyProjection → Option MonthlyProjection
  | [] => none
  | h :: t => some (t.foldl (fun w p => if p.netCashflow < w.netCashflow then p else w) h)

/-- One `{a, b, delta}` entry of a scenario diff. -/
structure DiffEntry where
  a : ℤ
  b : ℤ
  delta : ℤ
deriving DecidableEq

/-- The label-only worst-month entry (month labels, `none` for the
empty-series fallback `''`). -/
structure WorstEntry where
  a : Option ℤ
  b : Option ℤ
deriving DecidableEq

/-- `ScenarioDiff` record. -/
structure ScenarioDiff where
  netWorthAtRetirement : DiffEntry
  peakStress : DiffEntry
  worstMonth : WorstEntry
  redZoneMonths : DiffEntry
  freeTimeMinimum : DiffEntry
deriving DecidableEq

/-- `computeScenarioDiff` from `scenario-engine.ts`. -/
def computeScenarioDiff (aProjections bProjections : List MonthlyProjection)
    (aStress bStress : List StressScore) (retirementMonth : ℤ) : ScenarioDiff :=
  let aRetirement :=
    ((aProjections.find? fun p => decide (p.month = retirementMonth)).map
      (fun p => p.netWorth)).getD 0
  let bRetirement :=
    ((bProjections.find? fun p => decide (p.month = retirementMonth)).map
      (fun p => p.netWorth)).getD 0
  let aPeak := ((getPeakStress aStress).map fun s => s.composite).getD 0
  let bPeak := ((getPeakStress bStress).map fun s => s.composite).getD 0
  let aWorst := findWorst aProjections
  let bWorst := findWorst bProjections
  let aRedZone : ℤ := getRedZoneMonths aStress
  let bRedZone : ℤ := getRedZoneMonths bStress
  let aFreeMin := getMinimumFreeTime aStress
  let bFreeMin := getMinimumFreeTime bStress
  { netWorthAtRetirement := ⟨aRetirement, bRetirement, bRetirement - aRetirement⟩
    peakStress := ⟨aPeak, bPeak, bPeak - aPeak⟩
    worstMonth := ⟨aWorst.map fun p => p.month, bWorst.map fun p => p.month⟩
    redZoneMonths := ⟨aRedZone, bRedZone, bRedZone - aRedZone⟩
    freeTimeMinimum := ⟨aFreeMin, bFreeMin, bFreeMin - aFreeMin⟩ }

end Scenario


/-! ## Calendar dates

`date-fns` dates are modelled at month/day granularity: `month` counts
calendar months from year 0 (January of year `y` is `12 * y`), `day` is
the day of month.  `addMonths` clamps the day to the target month's
length, as `date-fns` does. -/

/-- A calendar date at month/day granularity. -/
structure CalDate where
  month : ℤ
  day : ℤ
deriving DecidableEq, Inhabited

/-- Gregorian leap-year rule. -/
def isLeapYear (y : ℤ) : Bool :=
  (decide (y % 4 = 0) && decide (y % 100 ≠ 0)) || decide (y % 400 = 0)

/-- Number of days in the month with index `m`. -/
def daysInMonth (m : ℤ) : ℤ :=
  let mm := m.emod 12
  if mm = 1 then (if isLeapYear (m.ediv 12) then 29 else 28)
  else if mm = 3 ∨ mm = 5 ∨ mm = 8 ∨ mm = 10 then 30
  else 31

/-- `date-fns` `addMonths`: shift the month, clamping the day. -/
def CalDate.addMonths (d : CalDate) (k : ℤ) : CalDate :=
  ⟨d.month + k, min d.day (daysInMonth (d.month + k))⟩

/-- `date-fns` `isBefore` (lexicographic on month, then day). -/
def CalDate.isBefore (a b : CalDate) : Bool :=
  decide (a.month < b.month ∨ (a.month = b.month ∧ a.day < b.day))

/-- `date-fns` `isAfter`. -/
def CalDate.isAfter (a b : CalDate) : Bool := b.isBefore a

/-- `format(date, 'yyyy-MM')`: the month label (injective on months). -/
def monthLabel (d : CalDate) : ℤ := d.month

namespace Financial

/-- JavaScript `Math.round` on reals. -/
noncomputable def jroundR (x : ℝ) : ℤ := ⌊x + 1/2⌋

/-- `Account`: balance, debt flag (`type === 'debt'`), annual rate. -/
structure Account where
  balance : ℝ
  isDebt : Bool
  interestRate : ℝ

/-- `IncomeStream`: monthly amount, active window, annual growth %. -/
structure IncomeStream where
  monthlyAmount : ℝ
  startDate : CalDate
  endDate : CalDate
  annualGrowthRate : ℝ

/-- `ExpenseRule`: monthly amount, active window, annual inflation %. -/
structure ExpenseRule where
  monthlyAmount : ℝ
  startDate : CalDate
  endDate : CalDate
  annualInflationRate : ℝ

/-- `Math.pow(1 + rate/100, m/12)`. -/
noncomputable def growthFactor (rate : ℝ) (m : ℕ) : ℝ :=
  (1 + rate / 100) ^ ((m : ℝ) / 12)

/-- The income loop of `computeProjection` for one month. -/
noncomputable def incomeSum (streams : List IncomeStream) (currentDate : CalDate)
    (m : ℕ) : ℝ :=
  streams.foldl
    (fun acc s =>
      if currentDate.isBefore s.startDate || currentDate.isAfter s.endDate then acc
      else acc + s.monthlyAmount * growthFactor s.annualGrowthRate m) 0

/-- The expense loop of `computeProjection` for one month. -/
noncomputable def expenseSum (rules : List ExpenseRule) (currentDate : CalDate)
    (m : ℕ) : ℝ :=
  rules.foldl
    (fun acc r =>
      if currentDate.isBefore r.startDate || currentDate.isAfter r.endDate then acc
      else acc + r.monthlyAmount * growthFactor r.annualInflationRate m) 0

/-- One `MonthlyProjection` record with the uncertainty band
`sqrt(m + 1) * 500` around net worth, all outputs rounded. -/
noncomputable def mkEntry (label : ℤ) (inc exp cf nw : ℝ) (m : ℕ) :
    Scenario.MonthlyProjection :=
  ⟨label, jroundR inc, jroundR exp, jroundR cf, jroundR nw,
    jroundR (nw - Real.sqrt ((m : ℝ) + 1) * 500),
    jroundR (nw + Real.sqrt ((m : ℝ) + 1) * 500)⟩

/-- The month loop of `computeProjection`: state is the account balances
(with their monthly rates) and the running net worth. -/
noncomputable def projGo (streams : List IncomeStream) (rules : List ExpenseRule)
    (start : CalDate) : ℕ → ℕ → List (ℝ × ℝ) → ℝ → List Scenario.MonthlyProjection
  | _, 0, _, _ => []
  | m, fuel + 1, balances, netWorth =>
      let currentDate := start.addMonths (m : ℤ)
      let totalIncome := incomeSum streams currentDate m
      let totalExpenses := expenseSum rules currentDate m
      let netCashflow := totalIncome - totalExpenses
      let interestEarned := (balances.map fun b => b.1 * b.2).sum
      let netWorth' := netWorth + netCashflow + interestEarned
      mkEntry (monthLabel currentDate) totalIncome totalExpenses netCashflow netWorth' m ::
        projGo streams rules start (m + 1) fuel
          (balances.map fun b => (b.1 + b.1 * b.2, b.2)) netWorth'

/-- `computeProjection` from the financial projection engine. -/
noncomputable def computeProjection (accounts : List Account)
    (incomeStreams : List IncomeStream) (expenseRules : List ExpenseRule)
    (startDate : CalDate) (months : ℕ) : List Scenario.MonthlyProjection :=
  projGo incomeStreams expenseRules startDate 0 months
    (accounts.map fun a =>
      (if a.isDebt then -|a.balance| else a.balance, a.interestRate / 100 / 12))
    (accounts.foldl
      (fun sum a => if a.isDebt then sum - |a.balance| else sum + a.balance) 0)

/-- Uncertainty band width of the `k`-th projection entry
(`netWorthHigh - netWorthLow`), 0 when out of range. -/
noncomputable def bandWidthAt (l : List Scenario.MonthlyProjection) (k : ℕ) : ℤ :=
  ((l.get? k).map fun e => e.netWorthHigh - e.netWorthLow).getD 0

end Financial


namespace Debt

/-- Debt payoff strategies (`DebtStrategy` enumeration). -/
inductive DebtStrategy
  | minimumPayment
  | fixedPayment
  | snowball
  | avalanche
deriving DecidableEq, Inhabited

open DebtStrategy

/-- `DebtPlan` input record (display name omitted). -/
structure DebtPlan where
  id : ℕ
  principalBalance : ℚ
  annualInterestRate : ℚ
  minimumPayment : ℚ
  monthlyPayment : ℚ
  extraPayment : ℚ
  strategy : DebtStrategy
  startDate : CalDate
deriving DecidableEq

/-- Per-debt working state of `computeDebtPayoff`'s loop. -/
structure DState where
  id : ℕ
  balance : ℚ
  originalBalance : ℚ
  rate : ℚ
  minimum : ℚ
  monthlyPayment : ℚ
  extra : ℚ
  strategy : DebtStrategy
  startDate : CalDate
  totalInterest : ℚ
  totalPaid : ℚ
  paidOff : Bool
  payoffMonth : ℤ
  monthsToPayoff : ℕ
deriving DecidableEq, Inhabited

/-- The working-state initializer of `computeDebtPayoff`. -/
def initDebt (d : DebtPlan) : DState :=
  ⟨d.id, d.principalBalance, d.principalBalance, d.annualInterestRate / 100 / 12,
    d.minimumPayment, d.monthlyPayment, d.extraPayment, d.strategy, d.startDate,
    0, 0, false, 0, 0⟩

/-- `DebtPayoffMonth` schedule entry (display name omitted). -/
structure SEntry where
  month : ℤ
  debtId : ℕ
  startingBalance : ℚ
  payment : ℚ
  interestCharged : ℚ
  principalPaid : ℚ
  endingBalance : ℚ
  isPaidOff : Bool
deriving DecidableEq

/-- `Math.round(x * 100) / 100` — rounding to cents. -/
def jround2 (x : ℚ) : ℚ := (jround (x * 100) : ℚ) / 100

/-- Membership in `activeDebts`: not paid off and already started. -/
def isActive (currentDate : CalDate) (d : DState) : Bool :=
  !d.paidOff && !(currentDate.isBefore d.startDate)

/-- Step 1: charge interest on the active debts. -/
def accrue (currentDate : CalDate) (debts : List DState) : List DState :=
  debts.map fun d =>
    if isActive currentDate d then
      { d with balance := d.balance + d.balance * d.rate,
               totalInterest := d.totalInterest + d.balance * d.rate }
    else d

/-- Step 2 for one debt: apply the minimum payment (capped at the
balance) and push this month's schedule entry. -/
def minStep (monthStr : ℤ) (d : DState) : DState × SEntry :=
  let payment := min d.minimum d.balance
  let balance := d.balance - payment
  let interest := if 0 ≤ balance then balance * d.rate / (1 + d.rate) else 0
  ({ d with balance := balance, totalPaid := d.totalPaid + payment },
    ⟨monthStr, d.id, balance + payment, payment, jround2 interest,
      jround2 (payment - interest), jround2 balance, decide (balance ≤ 0.01)⟩)

/-- Step 2 over the debt list, collecting this month's entries in the
debts' order. -/
def payMinimums (monthStr : ℤ) (currentDate : CalDate) :
    List DState → List DState × List SEntry
  | [] => ([], [])
  | d :: rest =>
      let r := payMinimums monthStr currentDate rest
      if isActive currentDate d then
        let p := minStep monthStr d
        (p.1 :: r.1, p.2 :: r.2)
      else (d :: r.1, r.2)

/-- Replace the first entry (scanning from the front) with the given
debt id. -/
def updFirst (id : ℕ) (f : SEntry → SEntry) : List SEntry → List SEntry
  | [] => []
  | e :: rest => if e.debtId = id then f e :: rest else e :: updFirst id f rest

/-- `schedule.filter(e => e.debtId === id).pop()` mutation: update the
last entry for the given debt id. -/
def updateLast (sched : List SEntry) (id : ℕ) (f : SEntry → SEntry) : List SEntry :=
  (updFirst id f sched.reverse).reverse

/-- The schedule mutation applied when a debt receives `extra`
(`lastEntry.payment += extra; …`); `newBalance` is the balance after the
extra payment. -/
def extraUpd (extra newBalance : ℚ) (e : SEntry) : SEntry :=
  { e with payment := e.payment + extra, principalPaid := e.principalPaid + extra,
           endingBalance := jround2 newBalance,
           isPaidOff := decide (newBalance ≤ 0.01) }

/-- Insert into a sorted list, keeping the new element before the first
element it compares `le` to (so earlier elements stay first on ties). -/
def insSorted (le : α → α → Bool) (a : α) : List α → List α
  | [] => [a]
  | b :: l => if le a b then a :: b :: l else b :: insSorted le a l

/-- JavaScript's stable `Array.prototype.sort` with a total comparator,
embedded as a stable insertion sort. -/
def stableSort (le : α → α → Bool) : List α → List α
  | [] => []
  | a :: l => insSorted le a (stableSort le l)

/-- Step 3 (pooled): walk the sorted positions, giving each debt
`min(remaining, balance)` until the pool runs out. -/
def allocateGo (monthStr : ℤ) :
    List ℕ → ℚ → List DState → List SEntry → List DState × List SEntry
  | [], _, debts, sched => (debts, sched)
  | i :: rest, remaining, debts, sched =>
      if remaining ≤ 0 then (debts, sched)
      else
        match debts.get? i with
        | none => allocateGo monthStr rest remaining debts sched
        | some d =>
            let extra := min remaining d.balance
            allocateGo monthStr rest (remaining - extra)
              (debts.set i { d with balance := d.balance - extra,
                                    totalPaid := d.totalPaid + extra })
              (updateLast sched d.id (extraUpd extra (d.balance - extra)))

/-- Step 3 (non-pooled): each active debt applies its own extra
(`monthlyPayment - minimum` under fixed-payment, `extraPayment`
otherwise). -/
def ownExtraGo (monthStr : ℤ) (currentDate : CalDate) :
    List ℕ → List DState → List SEntry → List DState × List SEntry
  | [], debts, sched => (debts, sched)
  | i :: rest, debts, sched =>
      match debts.get? i with
      | none => ownExtraGo monthStr currentDate rest debts sched
      | some d =>
          if isActive currentDate d ∧ ¬ (d.balance ≤ 0.01) then
            let extraForThis :=
              if d.strategy = fixedPayment then d.monthlyPayment - d.minimum else d.extra
            if extraForThis ≤ 0 then ownExtraGo monthStr currentDate rest debts sched
            else
              let extra := min extraForThis d.balance
              ownExtraGo monthStr currentDate rest
                (debts.set i { d with balance := d.balance - extra,
                                      totalPaid := d.totalPaid + extra })
                (updateLast sched d.id (extraUpd extra (d.balance - extra)))
          else ownExtraGo monthStr currentDate rest debts sched

/-- Step 4: mark debts whose balance fell to `≤ 0.01`. -/
def markPaidOff (monthStr : ℤ) (m : ℕ) (currentDate : CalDate)
    (debts : List DState) : List DState :=
  debts.map fun d =>
    if isActive currentDate d && decide (d.balance ≤ 0.01) then
      { d with paidOff := true, balance := 0, payoffMonth := monthStr,
               monthsToPayoff := m + 1 }
    else d

/-- The loop state: accumulated schedule and per-debt states. -/
structure RunState where
  sched : List SEntry
  debts : List DState
deriving DecidableEq

/-- One month of `computeDebtPayoff`'s loop. -/
def stepMonth (earliest : CalDate) (isPooled firstSnowball : Bool)
    (totalExtraBudget : ℚ) (m : ℕ) (st : RunState) : RunState :=
  let currentDate := earliest.addMonths (m : ℤ)
  let monthStr := monthLabel currentDate
  let debts1 := accrue currentDate st.debts
  let r2 := payMinimums monthStr currentDate debts1
  let sched2 := st.sched ++ r2.2
  let r3 :=
    if isPooled && decide (totalExtraBudget > 0) then
      let eligible := r2.1.enum.filter fun p =>
        isActive currentDate p.2 && decide (p.2.balance > 0.01)
      let sorted :=
        if firstSnowball then
          stableSort (fun a b => decide (a.2.balance ≤ b.2.balance)) eligible
        else
          stableSort (fun a b => decide (b.2.rate ≤ a.2.rate)) eligible
      let paidOffMinimums :=
        (r2.1.filter fun d => d.paidOff).foldl (fun s d => s + d.minimum) 0
      allocateGo monthStr (sorted.map Prod.fst)
        (totalExtraBudget + paidOffMinimums) r2.1 sched2
    else
      ownExtraGo monthStr currentDate (List.range r2.1.length) r2.1 sched2
  ⟨r3.2, markPaidOff monthStr m currentDate r3.1⟩

/-- The month loop with the all-paid-off early exit. -/
def runLoop (earliest : CalDate) (isPooled firstSnowball : Bool)
    (totalExtraBudget : ℚ) : ℕ → ℕ → RunState → RunState
  | 0, _, st => st
  | fuel + 1, m, st =>
      if (st.debts.filter fun d => isActive (earliest.addMonths (m : ℤ)) d).isEmpty then st
      else
        runLoop earliest isPooled firstSnowball totalExtraBudget fuel (m + 1)
          (stepMonth earliest isPooled firstSnowball totalExtraBudget m st)

/-- `DebtPayoffSummary` (payoff date `none` while never paid off). -/
structure DebtPayoffSummary where
  debtId : ℕ
  originalBalance : ℚ
  totalInterestPaid : ℚ
  totalPaid : ℚ
  monthsToPayoff : ℕ
  payoffDate : Option ℤ
deriving DecidableEq

/-- `DebtPayoffResult`. -/
structure DebtPayoffResult where
  schedule : List SEntry
  summaries : List DebtPayoffSummary
  totalInterestPaid : ℚ
  totalPaid : ℚ
  lastPayoffDate : Option ℤ
deriving DecidableEq

/-- The `payoffDate > latest` reduce (empty label modelled as `none`). -/
def laterDate (latest d : Option ℤ) : Option ℤ :=
  match d, latest with
  | none, l => l
  | some x, none => some x
  | some x, some y => if x > y then some x else some y

/-- `computeDebtPayoff` from the debt payoff engine. -/
def computeDebtPayoff (debtPlans : List DebtPlan) (maxMonths : ℕ := 600) :
    DebtPayoffResult :=
  match debtPlans with
  | [] => ⟨[], [], 0, 0, none⟩
  | p0 :: _ =>
      let debts := debtPlans.map initDebt
      let isPooled := debts.any fun d =>
        decide (d.strategy = snowball) || decide (d.strategy = avalanche)
      let totalExtraBudget :=
        if isPooled then debts.foldl (fun s d => s + d.extra) 0 else 0
      let earliest := debts.foldl
        (fun mn d => if d.startDate.isBefore mn then d.startDate else mn)
        (initDebt p0).startDate
      let firstSnowball := decide ((initDebt p0).strategy = snowball)
      let final := runLoop earliest isPooled firstSnowball totalExtraBudget
        maxMonths 0 ⟨[], debts⟩
      let summaries := final.debts.map fun d =>
        (⟨d.id, d.originalBalance, jround2 d.totalInterest, jround2 d.totalPaid,
          d.monthsToPayoff, if d.paidOff then some d.payoffMonth else none⟩ :
          DebtPayoffSummary)
      ⟨final.sched, summaries,
        jround2 (final.debts.foldl (fun s d => s + d.totalInterest) 0),
        jround2 (final.debts.foldl (fun s d => s + d.totalPaid) 0),
        summaries.foldl (fun latest s => laterDate latest s.payoffDate) none⟩

/-- The spec's description of pooled allocation: apply the budget to the
first balance, spilling the remainder to the next, stopping when the
pool is exhausted. -/
def waterfall (budget : ℚ) : List ℚ → List ℚ
  | [] => []
  | b :: rest =>
      if budget ≤ 0 then b :: rest
      else (b - min budget b) :: waterfall (budget - min budget b) rest

/-- Abbreviation: the state after an extra payment of `x` lands on a
debt (balance down, totalPaid up), as the pooled loop writes it. -/
def payTo (d : DState) (x : ℚ) : DState :=
  { d with balance := d.balance - x, totalPaid := d.totalPaid + x }

end Debt

/-! ## Theorems -/

namespace Longevity

open Sex

/-- The interpolation scan stays within the table's value bounds. -/
theorem interpScan_bounds (age dflt lo hi : ℚ) :
    ∀ tbl : List (ℚ × ℚ), (∀ p ∈ tbl, lo ≤ p.2 ∧ p.2 ≤ hi) →
      lo ≤ dflt → dflt ≤ hi → List.Chain' (fun p q => p.1 < q.1) tbl →
      lo ≤ interpScan age dflt tbl ∧ interpScan age dflt tbl ≤ hi := by
  intro tbl
  induction tbl with
  | nil => intro _ h1 h2 _; simpa [interpScan] using ⟨h1, h2⟩
  | cons p0 rest ih =>
      match rest with
      | [] => intro _ h1 h2 _; simpa [interpScan] using ⟨h1, h2⟩
      | p1 :: rest' =>
          intro hv h1 h2 hc
          obtain ⟨a0, q0⟩ := p0
          obtain ⟨a1, q1⟩ := p1
          rw [interpScan]
          split_ifs with hcond
          · obtain ⟨hle, hlt⟩ := hcond
            have ha : a0 < a1 := by
              have := hc.rel_head
              simpa using this
            have hq0 := hv (a0, q0) (by simp)
            have hq1 := hv (a1, q1) (by simp)
            simp only at hq0 hq1
            have hden : (0:ℚ) < a1 - a0 := by linarith
            have ht0 : 0 ≤ (age - a0) / (a1 - a0) :=
              div_nonneg (by linarith) (by linarith)
            have ht1 : (age - a0) / (a1 - a0) < 1 := by
              rw [div_lt_one hden]; linarith
            constructor
            · nlinarith [hq0.1, hq1.1, ht0, ht1]
            · nlinarith [hq0.2, hq1.2, ht0, ht1]
          · exact ih (fun p hp => hv p (List.mem_cons_of_mem _ hp)) h1 h2 hc.tail

/-- The interpolation scan is strictly below 1 when all non-final table
values are, the final value is at most 1, and `age` lies strictly inside
the table's age range. -/
theorem interpScan_lt_one (age dflt : ℚ) :
    ∀ tbl : List (ℚ × ℚ), (∀ p ∈ tbl.dropLast, p.2 < 1) →
      (∀ p ∈ tbl, p.2 ≤ 1) → List.Chain' (fun p q => p.1 < q.1) tbl →
      (tbl.headD (0, 0)).1 ≤ age → age < (tbl.getLastD (0, 0)).1 →
      interpScan age dflt tbl < 1 := by
  intro tbl
  induction tbl with
  | nil => intro _ _ _ hlo hhi; simp at hlo hhi; linarith
  | cons p0 rest ih =>
      match rest with
      | [] =>
          intro _ _ _ hlo hhi
          simp at hlo hhi
          linarith
      | p1 :: rest' =>
          intro hd hv hc hlo hhi
          obtain ⟨a0, q0⟩ := p0
          obtain ⟨a1, q1⟩ := p1
          rw [interpScan]
          split_ifs with hcond
          · obtain ⟨hle, hlt⟩ := hcond
            have ha : a0 < a1 := by
              have := hc.rel_head
              simpa using this
            have hq0 : q0 < 1 := by
              have := hd (a0, q0) (by simp [List.dropLast_cons_of_ne_nil])
              simpa using this
            have hq1 : q1 ≤ 1 := by
              have := hv (a1, q1) (by simp)
              simpa using this
            have hden : (0:ℚ) < a1 - a0 := by linarith
            have ht0 : 0 ≤ (age - a0) / (a1 - a0) :=
              div_nonneg (by linarith) (by linarith)
            have ht1 : (age - a0) / (a1 - a0) < 1 := by
              rw [div_lt_one hden]; linarith
            nlinarith [ht0, ht1]
          · have hnot : ¬ (a0 ≤ age ∧ age < a1) := hcond
            have hge : a1 ≤ age := by
              rcases lt_or_le age a1 with h | h
              · exact absurd ⟨hlo, h⟩ hnot
              · exact h
            refine ih ?_ ?_ hc.tail (by simpa using hge) ?_
            · intro p hp
              refine hd p ?_
              rcases rest' with _ | ⟨r, rs⟩
              · simp at hp
              · exact List.mem_cons_of_mem _ hp
            · intro p hp
              exact hv p (List.mem_cons_of_mem _ hp)
            · simpa using hhi

end Longevity

namespace Longevity

open Sex

/-- `interpolateQx` stays in `[0, 1]` for a sorted table of `[0, 1]` rates. -/
theorem interpolateQx_bounds_of (tbl : List (ℚ × ℚ)) (x : ℚ)
    (hv : ∀ p ∈ tbl, 0 ≤ p.2 ∧ p.2 ≤ 1)
    (hc : List.Chain' (fun p q => p.1 < q.1) tbl) :
    0 ≤ interpolateQx tbl x ∧ interpolateQx tbl x ≤ 1 := by
  match tbl, hv, hc with
  | [], _, _ => simp [interpolateQx]
  | (a0, q0) :: rest, hv, hc =>
      have hne : ((a0, q0) :: rest : List (ℚ × ℚ)) ≠ [] := by simp
      have hmem : ((a0, q0) :: rest).getLastD (0, 0) ∈ (a0, q0) :: rest := by
        rw [List.getLastD_eq_getLast?, List.getLast?_eq_getLast _ hne]
        simp [List.getLast_mem]
      have hlast := hv _ hmem
      rw [interpolateQx]
      dsimp only
      split_ifs with h1 h2
      · simpa using hv (a0, q0) (by simp)
      · exact hlast
      · exact interpScan_bounds x _ 0 1 _ hv hlast.1 hlast.2 hc

/-- `interpolateQx` is strictly below 1 left of the final breakpoint. -/
theorem interpolateQx_lt_one_of (tbl : List (ℚ × ℚ)) (x : ℚ)
    (hd : ∀ p ∈ tbl.dropLast, p.2 < 1) (hv : ∀ p ∈ tbl, p.2 ≤ 1)
    (hc : List.Chain' (fun p q => p.1 < q.1) tbl)
    (hlen : 2 ≤ tbl.length)
    (hhi : x < (tbl.getLastD (0, 0)).1) :
    interpolateQx tbl x < 1 := by
  match tbl, hd, hv, hc, hlen with
  | (a0, q0) :: p1 :: rest, hd, hv, hc, _ =>
      rw [interpolateQx]
      dsimp only
      split_ifs with h1 h2
      · have : q0 < 1 := by
          have := hd (a0, q0) (by simp [List.dropLast_cons₂])
          simpa using this
        exact this
      · exact absurd h2 (not_le.mpr hhi)
      · exact interpScan_lt_one x _ _ hd hv hc (by simpa using (not_le.mp h1).le) hhi

/-- The male table is strictly sorted by age. -/
theorem chain_male : List.Chain' (fun p q : ℚ × ℚ => p.1 < q.1) LIFE_TABLE_QX_MALE := by
  norm_num [LIFE_TABLE_QX_MALE, List.chain'_cons]

/-- The female table is strictly sorted by age. -/
theorem chain_female : List.Chain' (fun p q : ℚ × ℚ => p.1 < q.1) LIFE_TABLE_QX_FEMALE := by
  norm_num [LIFE_TABLE_QX_FEMALE, List.chain'_cons]

/-- The mortality rate is within `[0,1]` at every (rational) age. -/
theorem qx_bounds (sex : Sex) (x : ℚ) :
    0 ≤ interpolateQx (tableOf sex) x ∧ interpolateQx (tableOf sex) x ≤ 1 := by
  cases sex
  · exact interpolateQx_bounds_of _ _ (by decide) chain_male
  · exact interpolateQx_bounds_of _ _ (by decide) chain_female

/-- The mortality rate is strictly below 1 before age 110. -/
theorem qx_lt_one (sex : Sex) (x : ℚ) (hx : x < 110) :
    interpolateQx (tableOf sex) x < 1 := by
  cases sex
  · exact interpolateQx_lt_one_of _ _ (by decide) (by decide) chain_male (by decide)
      (by norm_num [tableOf, LIFE_TABLE_QX_MALE]; exact hx)
  · exact interpolateQx_lt_one_of _ _ (by decide) (by decide) chain_female (by decide)
      (by norm_num [tableOf, LIFE_TABLE_QX_FEMALE]; exact hx)

/-- Scaling the starting survival scales every curve point. -/
theorem survivalGo_scale (tbl : List (ℚ × ℚ)) (c : ℚ) :
    ∀ (n : ℕ) (age : ℤ) (s : ℚ),
      survivalGo tbl n age (c * s) = (survivalGo tbl n age s).map (scalePt c)
  | 0, _, _ => by simp [survivalGo]
  | n + 1, age, s => by
      rw [survivalGo, survivalGo, List.map_cons]
      refine congrArg₂ _ rfl ?_
      rw [mul_assoc]
      exact survivalGo_scale tbl c n (age + 1) _

/-- The trapezoidal sum of a survival curve started at probability `s`
equals `s` times the backward recurrence `survTrap`. -/
theorem trapSum_survivalGo (tbl : List (ℚ × ℚ)) :
    ∀ (n : ℕ) (age : ℤ) (s : ℚ),
      trapSum (survivalGo tbl (n + 1) age s) = s * survTrap tbl n age
  | 0, age, s => by simp [survivalGo, trapSum, survTrap]
  | n + 1, age, s => by
      have ih := trapSum_survivalGo tbl n (age + 1) (s * (1 - interpolateQx tbl (age : ℚ)))
      rw [survivalGo, survivalGo, trapSum, ← survivalGo, ih, survTrap]
      ring

/-- Closed form of a survival curve's final point. -/
theorem survivalGo_getLastD (tbl : List (ℚ × ℚ)) :
    ∀ (n : ℕ) (age : ℤ) (s : ℚ) (d : SurvivalPoint),
      (survivalGo tbl (n + 1) age s).getLastD d = ⟨age + n, s * prodQ tbl age n⟩
  | 0, age, s, d => by simp [survivalGo, prodQ]
  | n + 1, age, s, d => by
      rw [survivalGo, List.getLastD_cons,
        survivalGo_getLastD tbl n (age + 1) _ _]
      refine congrArg₂ _ (by push_cast; ring) ?_
      rw [prodQ, mul_assoc]

/-- The running survival product lies in `[0, 1]`. -/
theorem prodQ_bounds (sex : Sex) :
    ∀ (n : ℕ) (age : ℤ),
      0 ≤ prodQ (tableOf sex) age n ∧ prodQ (tableOf sex) age n ≤ 1
  | 0, _ => by simp [prodQ]
  | n + 1, age => by
      have hq := qx_bounds sex (age : ℚ)
      have ih := prodQ_bounds sex n (age + 1)
      rw [prodQ]
      constructor
      · exact mul_nonneg (by linarith [hq.2]) ih.1
      · exact mul_le_one₀ (by linarith [hq.1]) ih.1 ih.2

/-- Splitting the survival product. -/
theorem prodQ_add (tbl : List (ℚ × ℚ)) :
    ∀ (m n : ℕ) (age : ℤ),
      prodQ tbl age (m + n) = prodQ tbl age m * prodQ tbl (age + m) n
  | 0, n, age => by simp [prodQ]
  | m + 1, n, age => by
      have ih := prodQ_add tbl m n (age + 1)
      have hsucc : m + 1 + n = (m + n) + 1 := by omega
      rw [hsucc, prodQ, prodQ, ih, mul_assoc]
      have : (age + 1 + (m : ℤ)) = age + (m + 1 : ℕ) := by push_cast; ring
      rw [this]

end Longevity

namespace Longevity

open Sex

/-- Soundness of the single-pass C6 checker: if it accepts from `age`
down for `n` steps, the female rounded life-expectancy sum strictly
exceeds the male one at every visited age `≤ 102`. -/
theorem c6Go_sound :
    ∀ (n : ℕ) (age : ℤ), age ≤ 110 →
      c6Go (survTrap LIFE_TABLE_QX_FEMALE (110 - age).toNat age)
           (survTrap LIFE_TABLE_QX_MALE (110 - age).toNat age) n age = true →
      ∀ a : ℤ, age - n < a → a ≤ age → a ≤ 102 →
        jround (survTrap LIFE_TABLE_QX_MALE (110 - a).toNat a * 10) <
          jround (survTrap LIFE_TABLE_QX_FEMALE (110 - a).toNat a * 10)
  | 0, age, _, _, a, h1, h2, _ => by omega
  | n + 1, age, hage, hchk, a, h1, h2, h3 => by
      rw [c6Go, Bool.and_eq_true] at hchk
      obtain ⟨hhead, htail⟩ := hchk
      rcases eq_or_lt_of_le h2 with rfl | hlt
      · rw [Bool.or_eq_true, decide_eq_true_iff, decide_eq_true_iff] at hhead
        rcases hhead with h | h
        · omega
        · exact h
      · have hkey : (110 - (age - 1)).toNat = (110 - age).toNat + 1 := by omega
        have harg : age - 1 + 1 = age := by ring
        have hF : survTrap LIFE_TABLE_QX_FEMALE (110 - (age - 1)).toNat (age - 1)
            = (1 + (1 - interpolateQx LIFE_TABLE_QX_FEMALE ((age - 1 : ℤ) : ℚ))) / 2 +
              (1 - interpolateQx LIFE_TABLE_QX_FEMALE ((age - 1 : ℤ) : ℚ)) *
                survTrap LIFE_TABLE_QX_FEMALE (110 - age).toNat age := by
          rw [hkey, survTrap, harg]
        have hM : survTrap LIFE_TABLE_QX_MALE (110 - (age - 1)).toNat (age - 1)
            = (1 + (1 - interpolateQx LIFE_TABLE_QX_MALE ((age - 1 : ℤ) : ℚ))) / 2 +
              (1 - interpolateQx LIFE_TABLE_QX_MALE ((age - 1 : ℤ) : ℚ)) *
                survTrap LIFE_TABLE_QX_MALE (110 - age).toNat age := by
          rw [hkey, survTrap, harg]
        rw [← hF, ← hM] at htail
        exact c6Go_sound n (age - 1) (by omega) htail a (by omega) (by omega) h3

/-- `lifeExpectancyAtAge` in terms of the backward recurrence. -/
theorem lifeExpectancy_fast (a : ℚ) (sex : Sex) (h : ⌊a⌋ ≤ 110) :
    lifeExpectancyAtAge a sex =
      (jround (survTrap (tableOf sex) (110 - ⌊a⌋).toNat ⌊a⌋ * 10) : ℚ) / 10 := by
  rw [lifeExpectancyAtAge, computeSurvivalCurve]
  have hn : (110 - ⌊a⌋ + 1).toNat = (110 - ⌊a⌋).toNat + 1 := by omega
  rw [hn, trapSum_survivalGo, one_mul]

end Longevity

namespace Longevity

open Sex

set_option maxHeartbeats 2000000

/-- Claim C6, counterexample: at age 110 the survival curve is a single
point, both trapezoidal sums are 0, and the rounded life expectancies of
the two sexes coincide — so "female strictly greater than male for every
age" is false as stated. -/
theorem claim_C6_counterexample :
    ¬ (lifeExpectancyAtAge 110 female > lifeExpectancyAtAge 110 male) := by decide

/-- Claim C6 (amended): for every age `a` with `0 ≤ a < 103`, and for
every age whose floor is 104 or 106,
`lifeExpectancyAtAge a female > lifeExpectancyAtAge a male`. At the
remaining ages the one-decimal rounding makes the two values coincide
(1.6/1.6 at floor 103, 1.3/1.3 at 105, 0.9/0.9 at 107, then 0.7, 0.6
and 0/0 from 110 on). -/
theorem claim_C6_amended (a : ℚ)
    (h : (0 ≤ a ∧ a < 103) ∨ ⌊a⌋ = 104 ∨ ⌊a⌋ = 106) :
    lifeExpectancyAtAge a female > lifeExpectancyAtAge a male := by
  rcases h with ⟨h0, h1⟩ | hfl | hfl
  · have hfl0 : (0 : ℤ) ≤ ⌊a⌋ := Int.le_floor.mpr (by exact_mod_cast h0)
    have hfl1 : ⌊a⌋ ≤ 102 := by
      have h2 : (⌊a⌋ : ℚ) ≤ a := Int.floor_le a
      have h3 : (⌊a⌋ : ℚ) < 103 := lt_of_le_of_lt h2 h1
      have h4 : ⌊a⌋ < (103 : ℤ) := by exact_mod_cast h3
      omega
    rw [lifeExpectancy_fast _ _ (by omega), lifeExpectancy_fast _ _ (by omega)]
    have hs := c6Go_sound 111 110 (by norm_num) (by decide) ⌊a⌋ (by omega) (by omega) hfl1
    have hc : ((jround (survTrap (tableOf male) (110 - ⌊a⌋).toNat ⌊a⌋ * 10) : ℚ)) <
        ((jround (survTrap (tableOf female) (110 - ⌊a⌋).toNat ⌊a⌋ * 10) : ℚ)) := by
      exact_mod_cast hs
    exact div_lt_div_of_pos_right hc (by norm_num)
  · rw [lifeExpectancy_fast _ _ (by omega), lifeExpectancy_fast _ _ (by omega), hfl]
    decide
  · rw [lifeExpectancy_fast _ _ (by omega), lifeExpectancy_fast _ _ (by omega), hfl]
    decide

/-- Witness for the amended claim C6 at ages 40 and 104.5 (floor 104,
one of the two isolated ages past 103 where the strict inequality still
holds). -/
theorem claim_C6_witness :
    ((0 : ℚ) ≤ 40 ∧ (40 : ℚ) < 103 ∧
      lifeExpectancyAtAge 40 female > lifeExpectancyAtAge 40 male) ∧
    (⌊(209/2 : ℚ)⌋ = 104 ∧
      lifeExpectancyAtAge (209/2) female > lifeExpectancyAtAge (209/2) male) :=
  ⟨⟨by decide, by decide, claim_C6_amended 40 (Or.inl ⟨by decide, by decide⟩)⟩,
    ⟨by decide, claim_C6_amended (209/2) (Or.inr (Or.inl (by decide)))⟩⟩

end Longevity

namespace Longevity

open Sex

/-- `pctGo` on a curve scaled by `c > 0` agrees with the source scan
`findAgeGo` on the unscaled curve. -/
theorem pctGo_scaled (c t : ℚ) (hc : 0 < c) :
    ∀ (l : List SurvivalPoint) (prev : SurvivalPoint),
      pctGo c t (scalePt c prev) (l.map (scalePt c)) = findAgeGo t prev l
  | [], prev => by simp [pctGo, findAgeGo]
  | curr :: rest, prev => by
      rw [List.map_cons, pctGo, findAgeGo]
      have hcond : ((scalePt c curr).probability ≤ t * c) ↔ (curr.probability ≤ t) := by
        show c * curr.probability ≤ t * c ↔ _
        rw [mul_comm t c]
        exact mul_le_mul_left hc
      by_cases h : curr.probability ≤ t
      · rw [if_pos (hcond.mpr h), if_pos h]
        have hratio : ((scalePt c prev).probability - t * c) /
              ((scalePt c prev).probability - (scalePt c curr).probability)
            = (prev.probability - t) / (prev.probability - curr.probability) := by
          show (c * prev.probability - t * c) / (c * prev.probability - c * curr.probability) = _
          rw [mul_comm t c, ← mul_sub, ← mul_sub, mul_div_mul_left _ _ (ne_of_gt hc)]
        rw [pctVal, hratio]
        rfl
      · rw [if_neg (fun hh => h (hcond.mp hh)), if_neg h]
        exact pctGo_scaled c t hc rest curr

/-- `emitAt` splits the (descending) target list at the first target the
current point fails, and every remaining target also fails there. -/
theorem emitAt_spec (base : ℚ) (prev curr : SurvivalPoint) (hb : 0 ≤ base) :
    ∀ ts : List ℚ, ts.Pairwise (fun x y => y ≤ x) →
      emitAt base prev curr ts =
        ((ts.takeWhile fun t => decide (curr.probability ≤ t * base)).map
            fun t => some (pctVal base t prev curr),
          ts.dropWhile fun t => decide (curr.probability ≤ t * base)) ∧
      ∀ t ∈ ts.dropWhile (fun t => decide (curr.probability ≤ t * base)),
        ¬ (curr.probability ≤ t * base)
  | [], _ => by simp [emitAt]
  | t :: ts, hp => by
      rw [emitAt]
      by_cases h : curr.probability ≤ t * base
      · obtain ⟨ih1, ih2⟩ := emitAt_spec base prev curr hb ts (List.Pairwise.of_cons hp)
        rw [List.takeWhile_cons_of_pos (by simpa using h),
          List.dropWhile_cons_of_pos (by simpa using h)]
        refine ⟨?_, ih2⟩
        rw [if_pos h, ih1]
        simp
      · rw [List.takeWhile_cons_of_neg (by simpa using h),
          List.dropWhile_cons_of_neg (by simpa using h)]
        refine ⟨by rw [if_neg h]; simp, ?_⟩
        intro t' ht'
        rcases List.mem_cons.mp ht' with rfl | hmem
        · exact h
        · have hle : t' ≤ t := (List.pairwise_cons.mp hp).1 t' hmem
          intro hcontra
          exact h (le_trans hcontra (by nlinarith))

/-- The one-scan multi-target resolver agrees with running the
single-target scan once per (descending) target. -/
theorem pct4Go_eq (base : ℚ) (hb : 0 ≤ base) :
    ∀ (l : List SurvivalPoint) (prev : SurvivalPoint) (ts : List ℚ),
      ts.Pairwise (fun x y => y ≤ x) →
      pct4Go base prev l ts = ts.map fun t => pctGo base t prev l
  | [], prev, ts, _ => by
      rw [pct4Go]
      apply List.map_congr_left
      intro t _
      rw [pctGo]
  | curr :: rest, prev, ts, hts => by
      rw [pct4Go]
      obtain ⟨heq, hdrop⟩ := emitAt_spec base prev curr hb ts hts
      rw [heq]
      dsimp only
      rw [pct4Go_eq base hb rest curr _
        (hts.sublist (List.dropWhile_sublist _))]
      conv_rhs =>
        rw [← List.takeWhile_append_dropWhile
          (fun t => decide (curr.probability ≤ t * base)) ts,
          List.map_append]
      congr 1
      · apply List.map_congr_left
        intro t ht
        have hpred := List.mem_takeWhile_imp ht
        rw [pctGo, if_pos (by simpa using hpred)]
      · apply List.map_congr_left
        intro t ht
        have hneg := hdrop t ht
        rw [pctGo, if_neg hneg]

/-- `findAge` on a nonempty curve always succeeds, with the last age as
fallback. -/
theorem findAge_cons (t : ℚ) (p : SurvivalPoint) (rest : List SurvivalPoint) :
    findAge (p :: rest) t =
      some ((findAgeGo t p rest).getD (((p :: rest).getLastD ⟨0, 0⟩).age : ℚ)) := by
  rw [findAge]
  cases h : findAgeGo t p rest <;> simp [h]

end Longevity

namespace Longevity

open Sex

/-- Soundness of the single-pass C2 checker: acceptance on a global
curve suffix yields, for every remaining start age up to 109, the four
percentile crossings of the source scan in strictly increasing order. -/
theorem c2Go_sound (sex : Sex) :
    ∀ (n : ℕ) (age : ℤ) (c : ℚ), 0 < c → age + (n : ℤ) = 111 →
      c2Go 110 (survivalGo (tableOf sex) n age c) = true →
      ∀ a : ℤ, age ≤ a → a ≤ 109 →
        ∃ x y z w : ℚ,
          findAge (survivalGo (tableOf sex) (111 - a).toNat a 1) 0.75 = some x ∧
          findAge (survivalGo (tableOf sex) (111 - a).toNat a 1) 0.50 = some y ∧
          findAge (survivalGo (tableOf sex) (111 - a).toNat a 1) 0.25 = some z ∧
          findAge (survivalGo (tableOf sex) (111 - a).toNat a 1) 0.10 = some w ∧
          x < y ∧ y < z ∧ z < w
  | 0, age, c, _, hinv, _, a, ha1, ha2 => by omega
  | n + 1, age, c, hc, hinv, hchk, a, ha1, ha2 => by
      rw [survivalGo, c2Go, Bool.and_eq_true] at hchk
      obtain ⟨hhead, htail⟩ := hchk
      set p := 1 - interpolateQx (tableOf sex) (age : ℚ) with hp
      rcases eq_or_lt_of_le ha1 with rfl | hlt
      · have hn1 : (111 - age).toNat = n + 1 := by omega
        have hQ : survivalGo (tableOf sex) n (age + 1) (c * p)
            = (survivalGo (tableOf sex) n (age + 1) p).map (scalePt c) :=
          survivalGo_scale (tableOf sex) c n (age + 1) p
        have hpt : (⟨age, c⟩ : SurvivalPoint) = scalePt c ⟨age, 1⟩ := by
          simp [scalePt]
        have hcons : (⟨age, (1:ℚ)⟩ :: survivalGo (tableOf sex) n (age + 1) p)
            = survivalGo (tableOf sex) (n + 1) age 1 := by
          rw [survivalGo, one_mul]
        have hlast : (((⟨age, (1:ℚ)⟩ :: survivalGo (tableOf sex) n (age + 1) p).getLastD
            ⟨0, 0⟩).age : ℚ) = (110 : ℚ) := by
          rw [hcons, survivalGo_getLastD]
          have : age + (n : ℤ) = 110 := by omega
          simp [this]
        rw [Bool.or_eq_true] at hhead
        rcases hhead with h109 | hmain
        · rw [decide_eq_true_iff] at h109
          simp only [] at h109
          omega
        · dsimp only at hmain
          rw [hQ, hpt] at hmain
          rw [pct4Go_eq c (le_of_lt hc) _ _ _
            (by norm_num [List.pairwise_cons])] at hmain
          simp only [List.map_cons, List.map_nil] at hmain
          rw [pctGo_scaled c 0.75 hc, pctGo_scaled c 0.50 hc,
            pctGo_scaled c 0.25 hc, pctGo_scaled c 0.10 hc] at hmain
          rw [ordered4, Bool.and_eq_true, Bool.and_eq_true,
            decide_eq_true_iff, decide_eq_true_iff, decide_eq_true_iff] at hmain
          obtain ⟨⟨hxy, hyz⟩, hzw⟩ := hmain
          refine ⟨_, _, _, _, ?_, ?_, ?_, ?_, hxy, hyz, hzw⟩ <;>
            · rw [hn1, ← hcons, findAge_cons, hlast]
      · have hq : interpolateQx (tableOf sex) ((age : ℤ) : ℚ) < 1 := by
          apply qx_lt_one
          have h108 : age ≤ 108 := by omega
          calc ((age : ℤ) : ℚ) ≤ 108 := by exact_mod_cast h108
            _ < 110 := by norm_num
        have hp0 : 0 < p := by rw [hp]; linarith
        exact c2Go_sound sex n (age + 1) (c * p) (mul_pos hc hp0)
          (by push_cast at hinv ⊢; linarith) htail a (by omega) ha2

end Longevity

namespace Longevity

open Sex

set_option maxHeartbeats 8000000

/-- Claim C2, counterexample: at current age 110 the survival curve is a
single point, every percentile search falls through to the last age, and
all four "percentile ages" are equal (110), so the strict ordering fails. -/
theorem claim_C2_counterexample :
    computePercentiles 110 male = some ⟨110, 110, 110, 110⟩ ∧ ¬ ((110 : ℚ) < 110) := by
  constructor
  · decide
  · norm_num

/-- Claim C2 (amended): for every current age `a` with `0 ≤ a < 110` and
both sexes, `computePercentiles` succeeds and its four percentile ages
are strictly ordered `p25 < p50 < p75 < p90`; at age 110 all four
collapse to 110, and above 110 the source function throws. -/
theorem claim_C2_amended (a : ℚ) (sex : Sex) (h0 : 0 ≤ a) (h1 : a < 110) :
    ∃ P, computePercentiles a sex = some P ∧
      P.p25 < P.p50 ∧ P.p50 < P.p75 ∧ P.p75 < P.p90 := by
  have hfl0 : (0 : ℤ) ≤ ⌊a⌋ := Int.le_floor.mpr (by exact_mod_cast h0)
  have hfl1 : ⌊a⌋ ≤ 109 := by
    have h2 : (⌊a⌋ : ℚ) ≤ a := Int.floor_le a
    have h4 : ⌊a⌋ < (110 : ℤ) := by exact_mod_cast lt_of_le_of_lt h2 h1
    omega
  have hcurve : computeSurvivalCurve a sex
      = survivalGo (tableOf sex) (111 - ⌊a⌋).toNat ⌊a⌋ 1 := by
    rw [computeSurvivalCurve]
    congr 2
    omega
  have hchk : c2Go 110 (survivalGo (tableOf sex) 111 0 1) = true := by
    cases sex
    · decide
    · decide
  obtain ⟨x, y, z, w, h75, h50, h25, h10, hxy, hyz, hzw⟩ :=
    c2Go_sound sex 111 0 1 one_pos (by norm_num) hchk ⌊a⌋ hfl0 hfl1
  refine ⟨⟨x, y, z, w⟩, ?_, hxy, hyz, hzw⟩
  rw [computePercentiles]
  rw [hcurve, h75, h50, h25, h10]

/-- Witness for the amended claim C2 at age 50, male. -/
theorem claim_C2_witness :
    (0 : ℚ) ≤ 50 ∧ (50 : ℚ) < 110 ∧
      ∃ P, computePercentiles 50 male = some P ∧
        P.p25 < P.p50 ∧ P.p50 < P.p75 ∧ P.p75 < P.p90 :=
  ⟨by decide, by decide, claim_C2_amended 50 male (by decide) (by decide)⟩

end Longevity

namespace Longevity

open Sex

/-- All probabilities of a survival curve started in `[0,1]` stay in `[0,1]`. -/
theorem survivalGo_bounds (sex : Sex) :
    ∀ (n : ℕ) (age : ℤ) (s : ℚ), 0 ≤ s → s ≤ 1 →
      ∀ p ∈ survivalGo (tableOf sex) n age s, 0 ≤ p.probability ∧ p.probability ≤ 1
  | 0, _, _, _, _, p, hp => by simp [survivalGo] at hp
  | n + 1, age, s, h0, h1, p, hp => by
      rw [survivalGo] at hp
      rcases List.mem_cons.mp hp with rfl | hmem
      · exact ⟨h0, h1⟩
      · have hq := qx_bounds sex (age : ℚ)
        exact survivalGo_bounds sex n (age + 1) _
          (mul_nonneg h0 (by linarith [hq.2]))
          (mul_le_one₀ h1 (by linarith [hq.2]) (by linarith [hq.1])) p hmem

/-- A survival curve started at a nonnegative probability is
non-increasing. -/
theorem survivalGo_chain (sex : Sex) :
    ∀ (n : ℕ) (age : ℤ) (s : ℚ), 0 ≤ s →
      List.Chain' (fun p q => q.probability ≤ p.probability)
        (survivalGo (tableOf sex) n age s)
  | 0, _, _, _ => by simp [survivalGo]
  | 1, age, s, _ => by simp [survivalGo]
  | n + 2, age, s, h0 => by
      have hq := qx_bounds sex (age : ℚ)
      have h0' : 0 ≤ s * (1 - interpolateQx (tableOf sex) (age : ℚ)) :=
        mul_nonneg h0 (by linarith [hq.2])
      have ih := survivalGo_chain sex (n + 1) (age + 1) _ h0'
      rw [survivalGo, survivalGo]
      rw [survivalGo] at ih
      refine List.Chain'.cons ?_ ih
      show s * (1 - interpolateQx (tableOf sex) (age : ℚ)) ≤ s
      nlinarith [hq.1, hq.2]

end Longevity

namespace Longevity

open Sex

/-- Claim C5, counterexample: from current age 108 (male, max age 110)
the survival curve ends at probability `0.2 × 0.1 = 0.02`, which does
not fall below 0.01 by the configured max age. -/
theorem claim_C5_counterexample :
    ((computeSurvivalCurve 108 male 110).getLastD ⟨0, 0⟩).probability = 1/50 ∧
      ¬ (((computeSurvivalCurve 108 male 110).getLastD ⟨0, 0⟩).probability < 0.01) := by
  constructor
  · decide
  · decide

/-- Claim C5 (amended): for every current age, sex and max age with
`⌊currentAge⌋ ≤ maxAge`, the survival curve starts at probability 1, is
monotonically non-increasing with every probability in `[0,1]`; the
final probability falls below 0.01 when the max age is the default 110
and the current age is at most 107 (from 108 on the remaining product
`0.2 × 0.1` stays at or above 0.01). -/
theorem claim_C5_amended (a : ℚ) (sex : Sex) (maxAge : ℤ) (h : ⌊a⌋ ≤ maxAge) :
    (computeSurvivalCurve a sex maxAge).head? = some ⟨⌊a⌋, 1⟩ ∧
    List.Chain' (fun p q => q.probability ≤ p.probability)
      (computeSurvivalCurve a sex maxAge) ∧
    (∀ p ∈ computeSurvivalCurve a sex maxAge,
      0 ≤ p.probability ∧ p.probability ≤ 1) ∧
    (maxAge = 110 → ⌊a⌋ ≤ 107 →
      ((computeSurvivalCurve a sex maxAge).getLastD ⟨0, 0⟩).probability < 0.01) := by
  have hn : (maxAge - ⌊a⌋ + 1).toNat = (maxAge - ⌊a⌋).toNat + 1 := by omega
  refine ⟨?_, ?_, ?_, ?_⟩
  · rw [computeSurvivalCurve, hn, survivalGo]
    rfl
  · exact survivalGo_chain sex _ _ _ (by norm_num)
  · exact survivalGo_bounds sex _ _ _ (by norm_num) (by norm_num)
  · intro h110 h107
    subst h110
    rw [computeSurvivalCurve, hn, survivalGo_getLastD, one_mul]
    have hsplit : (110 - ⌊a⌋).toNat = (107 - ⌊a⌋).toNat + 3 := by omega
    rw [hsplit, prodQ_add]
    have hcast : ⌊a⌋ + ((107 - ⌊a⌋).toNat : ℤ) = 107 := by omega
    rw [hcast]
    have hb := prodQ_bounds sex (107 - ⌊a⌋).toNat ⌊a⌋
    have htail : prodQ (tableOf sex) 107 3 < 0.01 ∧ 0 ≤ prodQ (tableOf sex) 107 3 := by
      cases sex
      · exact ⟨by decide, by decide⟩
      · exact ⟨by decide, by decide⟩
    calc prodQ (tableOf sex) ⌊a⌋ (107 - ⌊a⌋).toNat * prodQ (tableOf sex) 107 3
        ≤ 1 * prodQ (tableOf sex) 107 3 :=
          mul_le_mul_of_nonneg_right hb.2 htail.2
      _ = prodQ (tableOf sex) 107 3 := one_mul _
      _ < 0.01 := htail.1

/-- Witness for the amended claim C5 at age 30, female, max age 110. -/
theorem claim_C5_witness :
    (⌊(30 : ℚ)⌋ ≤ (110 : ℤ)) ∧
      ((computeSurvivalCurve 30 female 110).head? = some ⟨⌊(30 : ℚ)⌋, 1⟩ ∧
      List.Chain' (fun p q => q.probability ≤ p.probability)
        (computeSurvivalCurve 30 female 110) ∧
      (∀ p ∈ computeSurvivalCurve 30 female 110,
        0 ≤ p.probability ∧ p.probability ≤ 1) ∧
      ((110 : ℤ) = 110 → ⌊(30 : ℚ)⌋ ≤ 107 →
        ((computeSurvivalCurve 30 female 110).getLastD ⟨0, 0⟩).probability < 0.01)) :=
  ⟨by decide, claim_C5_amended 30 female 110 (by decide)⟩

end Longevity

namespace Longevity

open Sex

set_option maxHeartbeats 4000000

/-- The age recorded in a care point. -/
theorem carePoint_age (age : ℤ) (sex : Sex) : (carePoint age sex).age = age := rfl

/-- Membership in the care-needs curve characterized by `carePoint`. -/
theorem mem_careCurve {a : ℚ} {sex : Sex} {p : CareNeedsProbability}
    (hp : p ∈ computeCareNeedsCurve a sex) :
    p = carePoint p.age sex ∧ ⌊a⌋ ≤ p.age ∧ p.age ≤ 100 := by
  rw [computeCareNeedsCurve] at hp
  obtain ⟨k, hk, rfl⟩ := List.mem_map.mp hp
  rw [List.mem_range] at hk
  refine ⟨rfl, ?_, ?_⟩ <;> rw [carePoint_age] <;> omega

/-- Every care point of the curve is at some integer age `≤ 100`;
conversely each such age from the floor of the start age appears. -/
theorem carePoint_mem_careCurve {a : ℚ} {sex : Sex} {age : ℤ}
    (h1 : ⌊a⌋ ≤ age) (h2 : age ≤ 100) :
    carePoint age sex ∈ computeCareNeedsCurve a sex := by
  rw [computeCareNeedsCurve]
  refine List.mem_map.mpr ⟨(age - ⌊a⌋).toNat, ?_, ?_⟩
  · rw [List.mem_range]; omega
  · congr 1; omega

/-- Below age 60 the care point is the constant split 95 / 3 / 1.5 / 0.5. -/
theorem carePoint_lt60 (age : ℤ) (sex : Sex) (h : age < 60) :
    carePoint age sex = ⟨age, 95, 3, 1.5, 0.5⟩ := by
  cases sex <;>
    · simp only [carePoint, careRaw, if_pos h, genderFactor, jround]
      norm_num

/-- At ages 60–100 the four rounded percentages sum to within 0.1 of
100 (checked exhaustively for both sexes). -/
theorem carePoint_sum_6000 (sex : Sex) :
    ∀ m ∈ Finset.Icc (60 : ℤ) 100,
      (999 / 10 : ℚ) ≤ (carePoint m sex).independentLiving +
          (carePoint m sex).lightAssistance + (carePoint m sex).moderateAssistance +
          (carePoint m sex).fullCare ∧
        (carePoint m sex).independentLiving + (carePoint m sex).lightAssistance +
          (carePoint m sex).moderateAssistance + (carePoint m sex).fullCare ≤ 1001 / 10 := by
  cases sex
  · decide
  · decide

/-- Claim C3, counterexample: at age 63 for a female the four rounded
percentages sum to 100.1, not exactly 100. -/
theorem claim_C3_counterexample :
    ∃ p ∈ computeCareNeedsCurve 63 female,
      p.independentLiving + p.lightAssistance + p.moderateAssistance + p.fullCare ≠ 100 := by
  refine ⟨carePoint 63 female, ?_, ?_⟩
  · decide
  · decide

/-- Claim C3 (amended): at every age point of every care-needs curve the
four reported probabilities sum to within 0.1 of 100 percent (the
rounding to one decimal can leave a residue of ±0.1). -/
theorem claim_C3_amended (a : ℚ) (sex : Sex) :
    ∀ p ∈ computeCareNeedsCurve a sex,
      (999 / 10 : ℚ) ≤ p.independentLiving + p.lightAssistance +
          p.moderateAssistance + p.fullCare ∧
        p.independentLiving + p.lightAssistance + p.moderateAssistance +
          p.fullCare ≤ 1001 / 10 := by
  intro p hp
  obtain ⟨hpe, _, h100⟩ := mem_careCurve hp
  rcases lt_or_le p.age 60 with h60 | h60
  · rw [hpe, carePoint_lt60 _ _ h60]
    norm_num
  · have := carePoint_sum_6000 sex p.age (by rw [Finset.mem_Icc]; exact ⟨h60, h100⟩)
    rw [hpe]
    exact this

/-- Witness for the amended claim C3: the age-70 male point of the
curve started at 70. -/
theorem claim_C3_witness :
    carePoint 70 male ∈ computeCareNeedsCurve 70 male ∧
      ((999 / 10 : ℚ) ≤ (carePoint 70 male).independentLiving +
          (carePoint 70 male).lightAssistance + (carePoint 70 male).moderateAssistance +
          (carePoint 70 male).fullCare ∧
        (carePoint 70 male).independentLiving + (carePoint 70 male).lightAssistance +
          (carePoint 70 male).moderateAssistance + (carePoint 70 male).fullCare ≤ 1001 / 10) :=
  ⟨by decide, claim_C3_amended 70 male (carePoint 70 male) (by decide)⟩

end Longevity

namespace Longevity

open Sex

set_option maxHeartbeats 8000000

/-- For males, full-care probability is non-decreasing and independence
non-increasing across all age pairs in 60–100 (exhaustive check). -/
theorem careMono_male :
    ∀ m ∈ Finset.Icc (60 : ℤ) 100, ∀ n ∈ Finset.Icc (60 : ℤ) 100, m < n →
      (carePoint m male).fullCare ≤ (carePoint n male).fullCare ∧
      (carePoint n male).independentLiving ≤ (carePoint m male).independentLiving := by
  decide

/-- For females the same monotonicity holds except across the 89→90
band boundary (exhaustive check). -/
theorem careMono_female :
    ∀ m ∈ Finset.Icc (60 : ℤ) 100, ∀ n ∈ Finset.Icc (60 : ℤ) 100, m < n →
      (n ≤ 89 ∨ 90 ≤ m) →
      (carePoint m female).fullCare ≤ (carePoint n female).fullCare ∧
      (carePoint n female).independentLiving ≤ (carePoint m female).independentLiving := by
  decide

/-- Claim C4, counterexample: on the female curve the full-care
probability drops (18.1 → 17.5) and the independent-living probability
rises (26.7 → 28.0) from age 89 to age 90. -/
theorem claim_C4_counterexample :
    carePoint 89 female ∈ computeCareNeedsCurve 89 female ∧
    carePoint 90 female ∈ computeCareNeedsCurve 89 female ∧
    (carePoint 90 female).fullCare < (carePoint 89 female).fullCare ∧
    (carePoint 89 female).independentLiving < (carePoint 90 female).independentLiving := by
  refine ⟨?_, ?_, ?_, ?_⟩ <;> decide

/-- Claim C4 (amended): at every point of every care-needs curve the
four probabilities sum to within `[99, 101]`; between ages 60 and 100
full care is non-decreasing and independent living non-increasing with
age for males, and for females except across the 89→90 step, where both
monotonicities reverse. -/
theorem claim_C4_amended (a : ℚ) (sex : Sex) :
    (∀ p ∈ computeCareNeedsCurve a sex,
      (99 : ℚ) ≤ p.independentLiving + p.lightAssistance +
          p.moderateAssistance + p.fullCare ∧
        p.independentLiving + p.lightAssistance + p.moderateAssistance +
          p.fullCare ≤ 101) ∧
    (∀ p ∈ computeCareNeedsCurve a sex, ∀ q ∈ computeCareNeedsCurve a sex,
      60 ≤ p.age → p.age < q.age → q.age ≤ 100 →
      (sex = male ∨ q.age ≤ 89 ∨ 90 ≤ p.age) →
      p.fullCare ≤ q.fullCare ∧ q.independentLiving ≤ p.independentLiving) := by
  constructor
  · intro p hp
    have := claim_C3_amended a sex p hp
    constructor <;> [linarith [this.1]; linarith [this.2]]
  · intro p hp q hq h60 hlt h100 hcase
    obtain ⟨hpe, _, _⟩ := mem_careCurve hp
    obtain ⟨hqe, _, _⟩ := mem_careCurve hq
    have hpIcc : p.age ∈ Finset.Icc (60 : ℤ) 100 := by
      rw [Finset.mem_Icc]; omega
    have hqIcc : q.age ∈ Finset.Icc (60 : ℤ) 100 := by
      rw [Finset.mem_Icc]; omega
    rcases hcase with hmale | hexc
    · subst hmale
      have := careMono_male p.age hpIcc q.age hqIcc hlt
      rw [hpe, hqe]
      exact this
    · cases sex
      · have := careMono_male p.age hpIcc q.age hqIcc hlt
        rw [hpe, hqe]
        exact this
      · have := careMono_female p.age hpIcc q.age hqIcc hlt hexc
        rw [hpe, hqe]
        exact this

/-- Witness for the amended claim C4: curve started at 60, male, with
the pair of points at ages 70 and 80. -/
theorem claim_C4_witness :
    carePoint 70 male ∈ computeCareNeedsCurve 60 male ∧
    carePoint 80 male ∈ computeCareNeedsCurve 60 male ∧
    (60 : ℤ) ≤ (carePoint 70 male).age ∧
    (carePoint 70 male).age < (carePoint 80 male).age ∧
    (carePoint 80 male).age ≤ 100 ∧
    (carePoint 70 male).fullCare ≤ (carePoint 80 male).fullCare ∧
    (carePoint 80 male).independentLiving ≤ (carePoint 70 male).independentLiving := by
  refine ⟨?m1, ?m2, ?a1, ?a2, ?a3, ?ineq⟩
  case m1 => decide
  case m2 => decide
  case a1 => decide
  case a2 => decide
  case a3 => decide
  case ineq =>
    exact (claim_C4_amended 60 male).2 (carePoint 70 male) (by decide)
      (carePoint 80 male) (by decide) (by decide) (by decide) (by decide)
      (Or.inl rfl)

end Longevity

namespace Timeline

/-- Claim C9 (confirmed): for every pixel-per-day density `d > 0`, every
origin, and every integer pixel offset `px`, the round trip
`dateToPixel (pixelToDate px origin d) origin d` lands on the pixel of
the nearest whole day — it equals `round(px/d) * d`, hence differs from
`px` by at most `d/2` (whole-day rounding). -/
theorem claim_C9 (d : ℚ) (hd : 0 < d) (origin : ℤ) (px : ℤ) :
    dateToPixel (pixelToDate (px : ℚ) origin d) origin d
        = (jround ((px : ℚ) / d) : ℚ) * d ∧
      |dateToPixel (pixelToDate (px : ℚ) origin d) origin d - (px : ℚ)| ≤ d / 2 := by
  have hdays : differenceInDays (pixelToDate (px : ℚ) origin d) origin
      = jround ((px : ℚ) / d) := by
    rw [pixelToDate, differenceInDays, add_sub_cancel_left]
    exact Int.mul_tdiv_cancel _ (by norm_num)
  have heq : dateToPixel (pixelToDate (px : ℚ) origin d) origin d
      = (jround ((px : ℚ) / d) : ℚ) * d := by
    rw [dateToPixel, hdays]
  refine ⟨heq, ?_⟩
  rw [heq]
  have h1 : ((px : ℚ) / d + 1 / 2) - 1 < (jround ((px : ℚ) / d) : ℚ) := by
    rw [jround]
    linarith [Int.sub_one_lt_floor ((px : ℚ) / d + 1 / 2)]
  have h2 : (jround ((px : ℚ) / d) : ℚ) ≤ (px : ℚ) / d + 1 / 2 := by
    rw [jround]
    exact Int.floor_le _
  have hpx : (px : ℚ) = (px : ℚ) / d * d := by
    field_simp
  rw [abs_le]
  constructor <;> nlinarith [h1, h2, hd]

/-- Witness for claim C9 at `d = 2`, origin 0, `px = 5`. -/
theorem claim_C9_witness :
    (0 : ℚ) < 2 ∧
      (dateToPixel (pixelToDate ((5 : ℤ) : ℚ) 0 2) 0 2
          = (jround (((5 : ℤ) : ℚ) / 2) : ℚ) * 2 ∧
        |dateToPixel (pixelToDate ((5 : ℤ) : ℚ) 0 2) 0 2 - ((5 : ℤ) : ℚ)| ≤ 2 / 2) :=
  ⟨by decide, claim_C9 2 (by decide) 0 5⟩

end Timeline

namespace Scenario

/-- Claim C10 (confirmed): if the target month label occurs in neither
projection series, `computeScenarioDiff` reports
`netWorthAtRetirement = {a := 0, b := 0, delta := 0}` — the missing
retirement month is silently rendered as net worth 0. -/
theorem claim_C10 (aProjections bProjections : List MonthlyProjection)
    (aStress bStress : List StressScore) (retirementMonth : ℤ)
    (ha : ∀ p ∈ aProjections, p.month ≠ retirementMonth)
    (hb : ∀ p ∈ bProjections, p.month ≠ retirementMonth) :
    (computeScenarioDiff aProjections bProjections aStress bStress
        retirementMonth).netWorthAtRetirement = ⟨0, 0, 0⟩ := by
  have hfa : aProjections.find? (fun p => decide (p.month = retirementMonth)) = none := by
    rw [List.find?_eq_none]
    intro p hp
    simpa using ha p hp
  have hfb : bProjections.find? (fun p => decide (p.month = retirementMonth)) = none := by
    rw [List.find?_eq_none]
    intro p hp
    simpa using hb p hp
  rw [computeScenarioDiff]
  simp [hfa, hfb]

/-- Witness for claim C10: a one-entry series whose only month is 5
with target month 7. -/
theorem claim_C10_witness :
    (∀ p ∈ [(⟨5, 1, 2, 3, 4, 5, 6⟩ : MonthlyProjection)], p.month ≠ 7) ∧
      (computeScenarioDiff [⟨5, 1, 2, 3, 4, 5, 6⟩] [] [] [] 7).netWorthAtRetirement
        = ⟨0, 0, 0⟩ :=
  ⟨by decide, claim_C10 [⟨5, 1, 2, 3, 4, 5, 6⟩] [] [] [] 7 (by decide) (by decide)⟩

end Scenario

namespace Financial

/-- Every projection entry's band fields are the rounded
`net worth ∓ sqrt(month + 1) * 500` for some real net worth. -/
theorem projGo_get_width (S : List IncomeStream) (R : List ExpenseRule) (D : CalDate) :
    ∀ (fuel m i : ℕ) (balances : List (ℝ × ℝ)) (w : ℝ), i < fuel →
      ∃ nw : ℝ, ((projGo S R D m fuel balances w).get? i).map
          (fun e => (e.netWorthLow, e.netWorthHigh))
        = some (⌊nw - Real.sqrt (((m + i : ℕ) : ℝ) + 1) * 500 + 1/2⌋,
            ⌊nw + Real.sqrt (((m + i : ℕ) : ℝ) + 1) * 500 + 1/2⌋)
  | 0, _, _, _, _, hi => absurd hi (by omega)
  | fuel + 1, m, 0, balances, w, _ => by
      refine ⟨w + (incomeSum S (D.addMonths (m : ℤ)) m - expenseSum R (D.addMonths (m : ℤ)) m) +
        ((balances.map fun b => b.1 * b.2).sum), ?_⟩
      simp only [projGo, mkEntry, jroundR, List.get?_cons_zero, Option.map_some, Nat.add_zero]
      rfl
  | fuel + 1, m, i + 1, balances, w, hi => by
      simp only [projGo, List.get?_cons_succ]
      have ih := projGo_get_width S R D fuel (m + 1) i
        ((balances.map fun b => (b.1 + b.1 * b.2, b.2)))
        (w + (incomeSum S (D.addMonths (m : ℤ)) m - expenseSum R (D.addMonths (m : ℤ)) m) +
          ((balances.map fun b => b.1 * b.2).sum)) (by omega)
      obtain ⟨nw, hnw⟩ := ih
      refine ⟨nw, ?_⟩
      have hidx : (m + 1 + i : ℕ) = (m + (i + 1) : ℕ) := by omega
      rw [← hidx]
      exact hnw

/-- Band-width form of `projGo_get_width` for `computeProjection`. -/
theorem computeProjection_width (accounts : List Account)
    (S : List IncomeStream) (R : List ExpenseRule) (D : CalDate) (months : ℕ)
    (i : ℕ) (hi : i < months) :
    ∃ nw : ℝ, bandWidthAt (computeProjection accounts S R D months) i
      = ⌊nw + Real.sqrt ((i : ℝ) + 1) * 500 + 1/2⌋ -
        ⌊nw - Real.sqrt ((i : ℝ) + 1) * 500 + 1/2⌋ := by
  obtain ⟨nw, hnw⟩ := projGo_get_width S R D months 0 i
    (accounts.map fun a =>
      (if a.isDebt then -|a.balance| else a.balance, a.interestRate / 100 / 12))
    (accounts.foldl
      (fun sum a => if a.isDebt then sum - |a.balance| else sum + a.balance) 0) hi
  rw [show (0 + i : ℕ) = i by omega] at hnw
  refine ⟨nw, ?_⟩
  obtain ⟨e, hget, hfe⟩ := Option.map_eq_some'.mp hnw
  rw [bandWidthAt, computeProjection, hget]
  simp only [Option.map_some', Option.getD_some]
  have h1 := congrArg Prod.fst hfe
  have h2 := congrArg Prod.snd hfe
  simp only at h1 h2
  rw [h1, h2]

end Financial

namespace Financial

/-- Claim C7 (amended): for month indices `i < j ≤ 62499` the rounded
uncertainty band strictly widens. -/
theorem claim_C7_amended (accounts : List Account) (S : List IncomeStream)
    (R : List ExpenseRule) (D : CalDate) (months : ℕ) (i j : ℕ)
    (hij : i < j) (hj : j ≤ 62499) (hjm : j < months) :
    bandWidthAt (computeProjection accounts S R D months) i <
      bandWidthAt (computeProjection accounts S R D months) j := by
  obtain ⟨nwi, hi⟩ := computeProjection_width accounts S R D months i (by omega)
  obtain ⟨nwj, hjw⟩ := computeProjection_width accounts S R D months j hjm
  rw [hi, hjw]
  have hsep : Real.sqrt ((i : ℝ) + 1) + 1/500 ≤ Real.sqrt ((j : ℝ) + 1) := by
    have hmono : Real.sqrt ((i : ℝ) + 1) ≤ Real.sqrt (j : ℝ) := by
      apply Real.sqrt_le_sqrt
      have : (i : ℝ) + 1 ≤ (j : ℝ) := by exact_mod_cast hij
      linarith
    have hu2 : Real.sqrt ((j : ℝ) + 1) ^ 2 = (j : ℝ) + 1 :=
      Real.sq_sqrt (by positivity)
    have hv2 : Real.sqrt (j : ℝ) ^ 2 = (j : ℝ) := Real.sq_sqrt (by positivity)
    have hj250 : (j : ℝ) ≤ 62499 := by exact_mod_cast hj
    have hu250 : Real.sqrt ((j : ℝ) + 1) ≤ 250 := by
      calc Real.sqrt ((j : ℝ) + 1) ≤ Real.sqrt 62500 :=
            Real.sqrt_le_sqrt (by linarith)
        _ = 250 := by
            rw [show (62500 : ℝ) = 250 ^ 2 by norm_num, Real.sqrt_sq (by norm_num)]
    have hv250 : Real.sqrt (j : ℝ) ≤ 250 := by
      calc Real.sqrt (j : ℝ) ≤ Real.sqrt 62500 := Real.sqrt_le_sqrt (by linarith)
        _ = 250 := by
            rw [show (62500 : ℝ) = 250 ^ 2 by norm_num, Real.sqrt_sq (by norm_num)]
    have hvpos : 0 ≤ Real.sqrt (j : ℝ) := Real.sqrt_nonneg _
    have hupos : 0 ≤ Real.sqrt ((j : ℝ) + 1) := Real.sqrt_nonneg _
    have hdiff : (Real.sqrt ((j : ℝ) + 1) - Real.sqrt (j : ℝ)) *
        (Real.sqrt ((j : ℝ) + 1) + Real.sqrt (j : ℝ)) = 1 := by nlinarith
    nlinarith [hdiff]
  have fA : (⌊nwj + Real.sqrt ((j : ℝ) + 1) * 500 + 1/2⌋ : ℝ) >
      nwj + Real.sqrt ((j : ℝ) + 1) * 500 + 1/2 - 1 := Int.sub_one_lt_floor _
  have fB : (⌊nwj - Real.sqrt ((j : ℝ) + 1) * 500 + 1/2⌋ : ℝ) ≤
      nwj - Real.sqrt ((j : ℝ) + 1) * 500 + 1/2 := Int.floor_le _
  have fC : (⌊nwi + Real.sqrt ((i : ℝ) + 1) * 500 + 1/2⌋ : ℝ) ≤
      nwi + Real.sqrt ((i : ℝ) + 1) * 500 + 1/2 := Int.floor_le _
  have fD : (⌊nwi - Real.sqrt ((i : ℝ) + 1) * 500 + 1/2⌋ : ℝ) >
      nwi - Real.sqrt ((i : ℝ) + 1) * 500 + 1/2 - 1 := Int.sub_one_lt_floor _
  have key : ((⌊nwi + Real.sqrt ((i : ℝ) + 1) * 500 + 1/2⌋ -
        ⌊nwi - Real.sqrt ((i : ℝ) + 1) * 500 + 1/2⌋ : ℤ) : ℝ) <
      ((⌊nwj + Real.sqrt ((j : ℝ) + 1) * 500 + 1/2⌋ -
        ⌊nwj - Real.sqrt ((j : ℝ) + 1) * 500 + 1/2⌋ : ℤ) : ℝ) := by
    push_cast
    linarith
  exact_mod_cast key

/-- With empty inputs the projection's net worth stays 0 and each entry
is the zero entry of its month. -/
theorem projGo_empty_get (D : CalDate) :
    ∀ (fuel m i : ℕ), i < fuel →
      (projGo [] [] D m fuel [] 0).get? i =
        some (mkEntry (monthLabel (D.addMonths ((m + i : ℕ) : ℤ))) 0 0 0 0 (m + i))
  | 0, _, _, hi => absurd hi (by omega)
  | fuel + 1, m, 0, _ => by
      simp only [projGo, List.get?_cons_zero, Nat.add_zero, incomeSum, expenseSum,
        List.foldl_nil, List.map_nil, List.sum_nil]
      norm_num
  | fuel + 1, m, i + 1, hi => by
      simp only [projGo, List.get?_cons_succ, incomeSum, expenseSum,
        List.foldl_nil, List.map_nil, List.sum_nil]
      have hz : (0 : ℝ) + (0 - 0) + 0 = 0 := by ring
      rw [hz]
      have ih := projGo_empty_get D fuel (m + 1) i (by omega)
      have hidx : (m + 1 + i : ℕ) = (m + (i + 1) : ℕ) := by omega
      rw [← hidx]
      exact ih

/-- Claim C7, counterexample: with empty inputs and 251 002 months, the
rounded band widths at month indices 251 000 and 251 001 are both
501 000 — the band does not strictly widen at every pair `i < j`. -/
theorem claim_C7_counterexample :
    bandWidthAt (computeProjection [] [] [] ⟨0, 1⟩ 251002) 251000 = 501000 ∧
    bandWidthAt (computeProjection [] [] [] ⟨0, 1⟩ 251002) 251001 = 501000 ∧
    ¬ (bandWidthAt (computeProjection [] [] [] ⟨0, 1⟩ 251002) 251000 <
        bandWidthAt (computeProjection [] [] [] ⟨0, 1⟩ 251002) 251001) := by
  have hsq1 : Real.sqrt (((251000 : ℕ) : ℝ) + 1) = 501 := by
    rw [show (((251000 : ℕ) : ℝ) + 1) = 501 ^ 2 by norm_num, Real.sqrt_sq (by norm_num)]
  have hlo : (501 : ℝ) < Real.sqrt (251002 : ℝ) := by
    rw [Real.lt_sqrt (by norm_num : (0:ℝ) ≤ 501)]
    norm_num
  have hhi : Real.sqrt (251002 : ℝ) < 501.001 := by
    rw [Real.sqrt_lt' (by norm_num : (0:ℝ) < 501.001)]
    norm_num
  have hw : ∀ k : ℕ, k < 251002 →
      bandWidthAt (computeProjection [] [] [] ⟨0, 1⟩ 251002) k =
        ⌊(0 : ℝ) + Real.sqrt ((k : ℝ) + 1) * 500 + 1/2⌋ -
          ⌊(0 : ℝ) - Real.sqrt ((k : ℝ) + 1) * 500 + 1/2⌋ := by
    intro k hk
    rw [bandWidthAt, computeProjection]
    simp only [List.map_nil, List.foldl_nil]
    rw [projGo_empty_get ⟨0, 1⟩ 251002 0 k hk]
    simp only [Option.map_some', Option.getD_some, Nat.zero_add]
    rfl
  have h1 : bandWidthAt (computeProjection [] [] [] ⟨0, 1⟩ 251002) 251000 = 501000 := by
    rw [hw 251000 (by norm_num), hsq1]
    have ha : ⌊(0 : ℝ) + 501 * 500 + 1/2⌋ = (250500 : ℤ) := by
      rw [Int.floor_eq_iff]
      norm_num
    have hb : ⌊(0 : ℝ) - 501 * 500 + 1/2⌋ = (-250500 : ℤ) := by
      rw [Int.floor_eq_iff]
      norm_num
    rw [ha, hb]
    norm_num
  have h2 : bandWidthAt (computeProjection [] [] [] ⟨0, 1⟩ 251002) 251001 = 501000 := by
    rw [hw 251001 (by norm_num)]
    rw [show (((251001 : ℕ) : ℝ) + 1) = (251002 : ℝ) by norm_num]
    have hm1 : (501 : ℝ) * 500 < Real.sqrt (251002 : ℝ) * 500 :=
      mul_lt_mul_of_pos_right hlo (by norm_num)
    have hm2 : Real.sqrt (251002 : ℝ) * 500 < 501.001 * 500 :=
      mul_lt_mul_of_pos_right hhi (by norm_num)
    have ha : ⌊(0 : ℝ) + Real.sqrt (251002 : ℝ) * 500 + 1/2⌋ = (250500 : ℤ) := by
      rw [Int.floor_eq_iff]
      constructor
      · push_cast
        linarith
      · push_cast
        linarith
    have hb : ⌊(0 : ℝ) - Real.sqrt (251002 : ℝ) * 500 + 1/2⌋ = (-250500 : ℤ) := by
      rw [Int.floor_eq_iff]
      constructor
      · push_cast
        linarith
      · push_cast
        linarith
    rw [ha, hb]
    norm_num
  exact ⟨h1, h2, by rw [h1, h2]; omega⟩

/-- Witness for the amended claim C7: empty inputs, two months, band at
month 1 wider than at month 0. -/
theorem claim_C7_witness :
    (0 : ℕ) < 1 ∧ (1 : ℕ) ≤ 62499 ∧ (1 : ℕ) < 2 ∧
      bandWidthAt (computeProjection [] [] [] ⟨0, 1⟩ 2) 0 <
        bandWidthAt (computeProjection [] [] [] ⟨0, 1⟩ 2) 1 :=
  ⟨by decide, by decide, by decide,
    claim_C7_amended [] [] [] ⟨0, 1⟩ 2 0 1 (by decide) (by decide) (by decide)⟩

end Financial



namespace Debt

open DebtStrategy

/-- The pooled extra-payment loop is the spec's waterfall: walking the
given (distinct, in-range) positions, each debt's balance is reduced by
`min(remaining, balance)` with the remainder spilling to the next
position; debts at other positions are untouched. -/
theorem allocateGo_waterfall (monthStr : ℤ) :
    ∀ (idxs : List ℕ) (budget : ℚ) (debts : List DState) (sched : List SEntry),
      idxs.Nodup → (∀ i ∈ idxs, i < debts.length) →
      ((idxs.map fun i =>
          ((allocateGo monthStr idxs budget debts sched).1.getD i default).balance)
        = waterfall budget (idxs.map fun i => (debts.getD i default).balance)) ∧
      (∀ k, k ∉ idxs →
        (allocateGo monthStr idxs budget debts sched).1.getD k default
          = debts.getD k default)
  | [], budget, debts, sched, _, _ => by
      exact ⟨rfl, fun k _ => rfl⟩
  | i :: rest, budget, debts, sched, hnd, hval => by
      have hnotmem : i ∉ rest := (List.nodup_cons.mp hnd).1
      have hndr : rest.Nodup := (List.nodup_cons.mp hnd).2
      by_cases hb : budget ≤ 0
      · constructor
        · rw [allocateGo, if_pos hb]
          simp only [List.map_cons]
          rw [waterfall, if_pos hb]
        · intro k _
          rw [allocateGo, if_pos hb]
      · have hi : i < debts.length := hval i (List.mem_cons_self i rest)
        obtain ⟨d, hd⟩ : ∃ d, debts.get? i = some d := ⟨_, List.get?_eq_get hi⟩
        have hgetD : debts.getD i default = d := by
          rw [List.getD_eq_get?, hd]
          rfl
        have hstep : allocateGo monthStr (i :: rest) budget debts sched =
            allocateGo monthStr rest (budget - min budget d.balance)
              (debts.set i (payTo d (min budget d.balance)))
              (updateLast sched d.id
                (extraUpd (min budget d.balance)
                  (d.balance - min budget d.balance))) := by
          rw [allocateGo, if_neg hb, hd]
          rfl
        have hvr : ∀ j ∈ rest,
            j < (debts.set i (payTo d (min budget d.balance))).length := by
          intro j hj
          rw [List.length_set]
          exact hval j (List.mem_cons_of_mem _ hj)
        have IH := allocateGo_waterfall monthStr rest (budget - min budget d.balance)
          (debts.set i (payTo d (min budget d.balance)))
          (updateLast sched d.id
            (extraUpd (min budget d.balance) (d.balance - min budget d.balance)))
          hndr hvr
        have hsetD : (debts.set i (payTo d (min budget d.balance))).getD i default
            = payTo d (min budget d.balance) := by
          rw [List.getD_eq_get?, List.get?_set_eq_of_lt _ hi]
          rfl
        have hsetne : ∀ k, k ≠ i →
            (debts.set i (payTo d (min budget d.balance))).getD k default
            = debts.getD k default := by
          intro k hk
          rw [List.getD_eq_get?, List.getD_eq_get?,
            List.get?_set_ne _ _ (Ne.symm hk)]
        constructor
        · rw [hstep]
          simp only [List.map_cons]
          rw [waterfall, if_neg hb, hgetD]
          congr 1
          · rw [IH.2 i hnotmem, hsetD]
            rfl
          · rw [IH.1]
            congr 1
            refine List.map_congr_left ?_
            intro j hj
            have hji : j ≠ i := fun h => hnotmem (h ▸ hj)
            rw [hsetne j hji]
        · intro k hk
          have hki : k ≠ i := fun h => hk (by rw [h]; exact List.mem_cons_self i rest)
          have hkr : k ∉ rest := fun h => hk (List.mem_cons_of_mem _ h)
          rw [hstep, IH.2 k hkr, hsetne k hki]

end Debt

namespace Debt

/-- `insSorted` produces a permutation of `a :: l`. -/
theorem insSorted_perm {α : Type} (le : α → α → Bool) (a : α) :
    ∀ l : List α, (insSorted le a l).Perm (a :: l)
  | [] => List.Perm.refl _
  | b :: l => by
      rw [insSorted]
      by_cases h : le a b = true
      · rw [if_pos h]
      · rw [if_neg h]
        exact ((insSorted_perm le a l).cons b).trans (List.Perm.swap a b l)

/-- `stableSort` produces a permutation of its input. -/
theorem stableSort_perm {α : Type} (le : α → α → Bool) :
    ∀ l : List α, (stableSort le l).Perm l
  | [] => List.Perm.refl _
  | a :: l =>
      (insSorted_perm le a (stableSort le l)).trans
        ((stableSort_perm le l).cons a)

/-- `insSorted` preserves sortedness for a total transitive comparator. -/
theorem insSorted_pairwise {α : Type} (le : α → α → Bool)
    (htot : ∀ x y, le x y = true ∨ le y x = true)
    (htrans : ∀ x y z, le x y = true → le y z = true → le x z = true)
    (a : α) : ∀ l : List α, l.Pairwise (fun x y => le x y = true) →
      (insSorted le a l).Pairwise (fun x y => le x y = true)
  | [], _ => by
      rw [insSorted]
      exact List.pairwise_singleton _ _
  | b :: l, hp => by
      obtain ⟨hbl, hl⟩ := List.pairwise_cons.mp hp
      rw [insSorted]
      by_cases h : le a b = true
      · rw [if_pos h]
        refine List.pairwise_cons.mpr ⟨?_, hp⟩
        intro x hx
        rcases List.mem_cons.mp hx with hxb | hxl
        · exact hxb ▸ h
        · exact htrans a b x h (hbl x hxl)
      · rw [if_neg h]
        have hba : le b a = true := (htot a b).resolve_left h
        refine List.pairwise_cons.mpr
          ⟨?_, insSorted_pairwise le htot htrans a l hl⟩
        intro x hx
        have hx' : x ∈ a :: l := (insSorted_perm le a l).mem_iff.mp hx
        rcases List.mem_cons.mp hx' with hxa | hxl
        · exact hxa ▸ hba
        · exact hbl x hxl

/-- `stableSort` sorts, for a total transitive comparator. -/
theorem stableSort_pairwise {α : Type} (le : α → α → Bool)
    (htot : ∀ x y, le x y = true ∨ le y x = true)
    (htrans : ∀ x y z, le x y = true → le y z = true → le x z = true) :
    ∀ l : List α, (stableSort le l).Pairwise (fun x y => le x y = true)
  | [] => List.Pairwise.nil
  | a :: l =>
      insSorted_pairwise le htot htrans a _ (stableSort_pairwise le htot htrans l)

end Debt

namespace Debt

/-- C1: with a snowball debt present the pooled extra budget is NOT
allocated by ascending balance — the order is decided solely by the
FIRST debt's strategy. Here debt 1 is snowball with the smallest
balance (100 vs 1010 at allocation time), yet debt 0 receives the whole
pooled 100 because debts[0] is minimum-payment, so the engine sorts by
descending rate instead. -/
theorem claim_C1_counterexample :
    ((([⟨0, 1000, 12, 0, 0, 100, DebtStrategy.minimumPayment, ⟨0, 1⟩⟩,
        ⟨1, 100, 0, 0, 0, 0, DebtStrategy.snowball, ⟨0, 1⟩⟩] :
          List DebtPlan).map fun p => p.strategy)
        = [DebtStrategy.minimumPayment, DebtStrategy.snowball]) ∧
    ((computeDebtPayoff
        [⟨0, 1000, 12, 0, 0, 100, DebtStrategy.minimumPayment, ⟨0, 1⟩⟩,
         ⟨1, 100, 0, 0, 0, 0, DebtStrategy.snowball, ⟨0, 1⟩⟩] 1).schedule.map
        fun e => (e.debtId, e.startingBalance, e.payment))
      = [(0, 1010, 100), (1, 100, 0)] := by
  constructor
  · rfl
  · decide

end Debt

namespace Debt

/-- C1 (amended): in the pooled branch the sort order is decided by the
FIRST debt's strategy alone — ascending balance iff debts[0] is
snowball, otherwise descending interest rate — and the pooled budget
(sum of all extras plus freed minimums) is then applied greedily in that
order, each eligible debt absorbing `min(remaining, balance)` with the
remainder spilling to the next, all other debts untouched. -/
theorem claim_C1_amended (monthStr : ℤ) (currentDate : CalDate)
    (debts : List DState) (sched : List SEntry) (budget : ℚ)
    (firstSnowball : Bool) (sorted : List (ℕ × DState))
    (hs : sorted =
      if firstSnowball then
        stableSort (fun a b => decide (a.2.balance ≤ b.2.balance))
          (debts.enum.filter fun p =>
            isActive currentDate p.2 && decide (p.2.balance > 0.01))
      else
        stableSort (fun a b => decide (b.2.rate ≤ a.2.rate))
          (debts.enum.filter fun p =>
            isActive currentDate p.2 && decide (p.2.balance > 0.01))) :
    (firstSnowball = true →
      sorted.Pairwise fun a b => a.2.balance ≤ b.2.balance) ∧
    (firstSnowball = false →
      sorted.Pairwise fun a b => b.2.rate ≤ a.2.rate) ∧
    (((sorted.map Prod.fst).map fun i =>
        ((allocateGo monthStr (sorted.map Prod.fst) budget debts
            sched).1.getD i default).balance)
      = waterfall budget
          ((sorted.map Prod.fst).map fun i => (debts.getD i default).balance)) ∧
    (∀ k, k ∉ sorted.map Prod.fst →
      (allocateGo monthStr (sorted.map Prod.fst) budget debts
          sched).1.getD k default
        = debts.getD k default) := by
  have hperm : sorted.Perm (debts.enum.filter fun p =>
      isActive currentDate p.2 && decide (p.2.balance > 0.01)) := by
    rw [hs]
    by_cases hf : firstSnowball = true
    · rw [if_pos hf]
      exact stableSort_perm _ _
    · rw [if_neg hf]
      exact stableSort_perm _ _
  have hsub : ((debts.enum.filter fun p =>
        isActive currentDate p.2 && decide (p.2.balance > 0.01)).map
          Prod.fst).Sublist (debts.enum.map Prod.fst) :=
    (List.filter_sublist _).map Prod.fst
  have hnodup : (sorted.map Prod.fst).Nodup := by
    refine ((hperm.map Prod.fst).nodup_iff).mpr ?_
    exact List.Nodup.sublist hsub (List.nodup_enum_map_fst debts)
  have hbound : ∀ i ∈ sorted.map Prod.fst, i < debts.length := by
    intro i hi
    have hi2 : i ∈ debts.enum.map Prod.fst :=
      hsub.subset ((hperm.map Prod.fst).mem_iff.mp hi)
    rw [List.enum_map_fst] at hi2
    exact List.mem_range.mp hi2
  have hw := allocateGo_waterfall monthStr (sorted.map Prod.fst) budget
    debts sched hnodup hbound
  refine ⟨?_, ?_, hw.1, hw.2⟩
  · intro hf
    rw [hs, if_pos hf]
    refine List.Pairwise.imp (fun h => of_decide_eq_true h)
      (stableSort_pairwise _ ?_ ?_ _)
    · intro x y
      rcases le_total x.2.balance y.2.balance with h | h
      · exact Or.inl (decide_eq_true h)
      · exact Or.inr (decide_eq_true h)
    · intro x y z hxy hyz
      exact decide_eq_true
        (le_trans (of_decide_eq_true hxy) (of_decide_eq_true hyz))
  · intro hf
    rw [hs, if_neg (by rw [hf]; exact Bool.false_ne_true)]
    refine List.Pairwise.imp (fun h => of_decide_eq_true h)
      (stableSort_pairwise _ ?_ ?_ _)
    · intro x y
      rcases le_total y.2.rate x.2.rate with h | h
      · exact Or.inl (decide_eq_true h)
      · exact Or.inr (decide_eq_true h)
    · intro x y z hxy hyz
      exact decide_eq_true
        (le_trans (of_decide_eq_true hyz) (of_decide_eq_true hxy))

end Debt

namespace Debt

/-- C1 (witness): two active snowball debts with balances 50 and 30 —
the engine sorts ascending by balance ([debt 1, debt 0]) and waterfalls
the pooled 40 over them; position 5 is untouched. -/
theorem claim_C1_witness :
    (([((1 : ℕ), (⟨1, 30, 30, 0, 0, 0, 0, DebtStrategy.snowball, ⟨0, 1⟩, 0, 0, false, 0, 0⟩ : DState)),
       ((0 : ℕ), (⟨0, 50, 50, 0, 0, 0, 0, DebtStrategy.snowball, ⟨0, 1⟩, 0, 0, false, 0, 0⟩ : DState))] : List (ℕ × DState)) =
      stableSort (fun a b => decide (a.2.balance ≤ b.2.balance))
        (([⟨0, 50, 50, 0, 0, 0, 0, DebtStrategy.snowball, ⟨0, 1⟩, 0, 0, false, 0, 0⟩,
       ⟨1, 30, 30, 0, 0, 0, 0, DebtStrategy.snowball, ⟨0, 1⟩, 0, 0, false, 0, 0⟩] : List DState).enum.filter fun p =>
          isActive ⟨0, 1⟩ p.2 && decide (p.2.balance > 0.01))) ∧
    (([((1 : ℕ), (⟨1, 30, 30, 0, 0, 0, 0, DebtStrategy.snowball, ⟨0, 1⟩, 0, 0, false, 0, 0⟩ : DState)),
       ((0 : ℕ), (⟨0, 50, 50, 0, 0, 0, 0, DebtStrategy.snowball, ⟨0, 1⟩, 0, 0, false, 0, 0⟩ : DState))] : List (ℕ × DState)).Pairwise fun a b => a.2.balance ≤ b.2.balance) ∧
    (((([((1 : ℕ), (⟨1, 30, 30, 0, 0, 0, 0, DebtStrategy.snowball, ⟨0, 1⟩, 0, 0, false, 0, 0⟩ : DState)),
       ((0 : ℕ), (⟨0, 50, 50, 0, 0, 0, 0, DebtStrategy.snowball, ⟨0, 1⟩, 0, 0, false, 0, 0⟩ : DState))] : List (ℕ × DState)).map Prod.fst).map fun i =>
        ((allocateGo 0 (([((1 : ℕ), (⟨1, 30, 30, 0, 0, 0, 0, DebtStrategy.snowball, ⟨0, 1⟩, 0, 0, false, 0, 0⟩ : DState)),
       ((0 : ℕ), (⟨0, 50, 50, 0, 0, 0, 0, DebtStrategy.snowball, ⟨0, 1⟩, 0, 0, false, 0, 0⟩ : DState))] : List (ℕ × DState)).map Prod.fst) 40
            ([⟨0, 50, 50, 0, 0, 0, 0, DebtStrategy.snowball, ⟨0, 1⟩, 0, 0, false, 0, 0⟩,
       ⟨1, 30, 30, 0, 0, 0, 0, DebtStrategy.snowball, ⟨0, 1⟩, 0, 0, false, 0, 0⟩] : List DState) []).1.getD i default).balance)
      = waterfall 40
          ((([((1 : ℕ), (⟨1, 30, 30, 0, 0, 0, 0, DebtStrategy.snowball, ⟨0, 1⟩, 0, 0, false, 0, 0⟩ : DState)),
       ((0 : ℕ), (⟨0, 50, 50, 0, 0, 0, 0, DebtStrategy.snowball, ⟨0, 1⟩, 0, 0, false, 0, 0⟩ : DState))] : List (ℕ × DState)).map Prod.fst).map fun i =>
            (([⟨0, 50, 50, 0, 0, 0, 0, DebtStrategy.snowball, ⟨0, 1⟩, 0, 0, false, 0, 0⟩,
       ⟨1, 30, 30, 0, 0, 0, 0, DebtStrategy.snowball, ⟨0, 1⟩, 0, 0, false, 0, 0⟩] : List DState).getD i default).balance)) ∧
    ((allocateGo 0 (([((1 : ℕ), (⟨1, 30, 30, 0, 0, 0, 0, DebtStrategy.snowball, ⟨0, 1⟩, 0, 0, false, 0, 0⟩ : DState)),
       ((0 : ℕ), (⟨0, 50, 50, 0, 0, 0, 0, DebtStrategy.snowball, ⟨0, 1⟩, 0, 0, false, 0, 0⟩ : DState))] : List (ℕ × DState)).map Prod.fst) 40
        ([⟨0, 50, 50, 0, 0, 0, 0, DebtStrategy.snowball, ⟨0, 1⟩, 0, 0, false, 0, 0⟩,
       ⟨1, 30, 30, 0, 0, 0, 0, DebtStrategy.snowball, ⟨0, 1⟩, 0, 0, false, 0, 0⟩] : List DState) []).1.getD 5 default
      = ([⟨0, 50, 50, 0, 0, 0, 0, DebtStrategy.snowball, ⟨0, 1⟩, 0, 0, false, 0, 0⟩,
       ⟨1, 30, 30, 0, 0, 0, 0, DebtStrategy.snowball, ⟨0, 1⟩, 0, 0, false, 0, 0⟩] : List DState).getD 5 default) := by
  have app := claim_C1_amended 0 ⟨0, 1⟩
    ([⟨0, 50, 50, 0, 0, 0, 0, DebtStrategy.snowball, ⟨0, 1⟩, 0, 0, false, 0, 0⟩,
       ⟨1, 30, 30, 0, 0, 0, 0, DebtStrategy.snowball, ⟨0, 1⟩, 0, 0, false, 0, 0⟩] : List DState) [] 40 true
    ([((1 : ℕ), (⟨1, 30, 30, 0, 0, 0, 0, DebtStrategy.snowball, ⟨0, 1⟩, 0, 0, false, 0, 0⟩ : DState)),
       ((0 : ℕ), (⟨0, 50, 50, 0, 0, 0, 0, DebtStrategy.snowball, ⟨0, 1⟩, 0, 0, false, 0, 0⟩ : DState))] : List (ℕ × DState)) (by decide)
  exact ⟨by decide, app.1 rfl, app.2.2.1, app.2.2.2 5 (by decide)⟩

end Debt

namespace Debt

/-- Interest accrual keeps balances, rates, minimums and extras
non-negative. -/
theorem accrue_inv (c : CalDate) (debts : List DState)
    (h : ∀ d ∈ debts, 0 ≤ d.balance ∧ 0 ≤ d.rate ∧ 0 ≤ d.minimum ∧ 0 ≤ d.extra) :
    ∀ d ∈ accrue c debts,
      0 ≤ d.balance ∧ 0 ≤ d.rate ∧ 0 ≤ d.minimum ∧ 0 ≤ d.extra := by
  intro x hx
  rw [accrue] at hx
  obtain ⟨d, hd, hfd⟩ := List.mem_map.mp hx
  obtain ⟨hb, hr, hm, he⟩ := h d hd
  subst hfd
  by_cases hA : isActive c d = true
  · rw [if_pos hA]
    refine ⟨?_, hr, hm, he⟩
    show 0 ≤ d.balance + d.balance * d.rate
    have := mul_nonneg hb hr
    linarith
  · rw [if_neg hA]
    exact ⟨hb, hr, hm, he⟩

/-- Interest accrual never decreases a debt's running totals. -/
theorem accrue_mono (c : CalDate) (debts : List DState)
    (h : ∀ d ∈ debts, 0 ≤ d.balance ∧ 0 ≤ d.rate) (k : ℕ) :
    (debts.getD k default).totalInterest
        ≤ ((accrue c debts).getD k default).totalInterest ∧
    (debts.getD k default).totalPaid
        ≤ ((accrue c debts).getD k default).totalPaid := by
  rw [List.getD_eq_get?, List.getD_eq_get?, accrue, List.get?_map]
  cases hk : debts.get? k with
  | none => exact ⟨le_refl _, le_refl _⟩
  | some d =>
      obtain ⟨hb, hr⟩ := h d (List.get?_mem hk)
      simp only [Option.map_some', Option.getD_some]
      by_cases hA : isActive c d = true
      · rw [if_pos hA]
        constructor
        · show d.totalInterest ≤ d.totalInterest + d.balance * d.rate
          have := mul_nonneg hb hr
          linarith
        · exact le_refl _
      · rw [if_neg hA]
        exact ⟨le_refl _, le_refl _⟩

/-- The debt-state component of `payMinimums` acts elementwise. -/
theorem payMinimums_fst (ms : ℤ) (c : CalDate) :
    ∀ debts : List DState,
      (payMinimums ms c debts).1
        = debts.map fun d => if isActive c d then (minStep ms d).1 else d
  | [] => rfl
  | d :: rest => by
      by_cases hA : isActive c d = true
      · simp [payMinimums, hA, payMinimums_fst ms c rest]
      · simp [payMinimums, hA, payMinimums_fst ms c rest]

/-- Minimum payments keep the invariant fields non-negative. -/
theorem payMinimums_inv (ms : ℤ) (c : CalDate) (debts : List DState)
    (h : ∀ d ∈ debts, 0 ≤ d.balance ∧ 0 ≤ d.rate ∧ 0 ≤ d.minimum ∧ 0 ≤ d.extra) :
    ∀ d ∈ (payMinimums ms c debts).1,
      0 ≤ d.balance ∧ 0 ≤ d.rate ∧ 0 ≤ d.minimum ∧ 0 ≤ d.extra := by
  rw [payMinimums_fst]
  intro x hx
  obtain ⟨d, hd, hfd⟩ := List.mem_map.mp hx
  obtain ⟨hb, hr, hm, he⟩ := h d hd
  subst hfd
  by_cases hA : isActive c d = true
  · rw [if_pos hA]
    refine ⟨?_, hr, hm, he⟩
    show 0 ≤ d.balance - min d.minimum d.balance
    have := min_le_right d.minimum d.balance
    linarith
  · rw [if_neg hA]
    exact ⟨hb, hr, hm, he⟩

/-- Minimum payments never decrease a debt's running totals. -/
theorem payMinimums_mono (ms : ℤ) (c : CalDate) (debts : List DState)
    (h : ∀ d ∈ debts, 0 ≤ d.balance ∧ 0 ≤ d.minimum) (k : ℕ) :
    (debts.getD k default).totalInterest
        ≤ ((payMinimums ms c debts).1.getD k default).totalInterest ∧
    (debts.getD k default).totalPaid
        ≤ ((payMinimums ms c debts).1.getD k default).totalPaid := by
  rw [payMinimums_fst, List.getD_eq_get?, List.getD_eq_get?, List.get?_map]
  cases hk : debts.get? k with
  | none => exact ⟨le_refl _, le_refl _⟩
  | some d =>
      obtain ⟨hb, hm⟩ := h d (List.get?_mem hk)
      simp only [Option.map_some', Option.getD_some]
      by_cases hA : isActive c d = true
      · rw [if_pos hA]
        constructor
        · exact le_refl _
        · show d.totalPaid ≤ d.totalPaid + min d.minimum d.balance
          have := le_min hm hb
          linarith
      · rw [if_neg hA]
        exact ⟨le_refl _, le_refl _⟩

/-- Marking paid-off debts keeps the invariant fields non-negative. -/
theorem markPaidOff_inv (ms : ℤ) (m : ℕ) (c : CalDate) (debts : List DState)
    (h : ∀ d ∈ debts, 0 ≤ d.balance ∧ 0 ≤ d.rate ∧ 0 ≤ d.minimum ∧ 0 ≤ d.extra) :
    ∀ d ∈ markPaidOff ms m c debts,
      0 ≤ d.balance ∧ 0 ≤ d.rate ∧ 0 ≤ d.minimum ∧ 0 ≤ d.extra := by
  intro x hx
  rw [markPaidOff] at hx
  obtain ⟨d, hd, hfd⟩ := List.mem_map.mp hx
  obtain ⟨hb, hr, hm, he⟩ := h d hd
  subst hfd
  by_cases hA : (isActive c d && decide (d.balance ≤ 0.01)) = true
  · rw [if_pos hA]
    exact ⟨le_refl 0, hr, hm, he⟩
  · rw [if_neg hA]
    exact ⟨hb, hr, hm, he⟩

/-- Marking paid-off debts leaves both running totals unchanged. -/
theorem markPaidOff_mono (ms : ℤ) (m : ℕ) (c : CalDate) (debts : List DState) (k : ℕ) :
    (debts.getD k default).totalInterest
        ≤ ((markPaidOff ms m c debts).getD k default).totalInterest ∧
    (debts.getD k default).totalPaid
        ≤ ((markPaidOff ms m c debts).getD k default).totalPaid := by
  rw [List.getD_eq_get?, List.getD_eq_get?, markPaidOff, List.get?_map]
  cases hk : debts.get? k with
  | none => exact ⟨le_refl _, le_refl _⟩
  | some d =>
      simp only [Option.map_some', Option.getD_some]
      by_cases hA : (isActive c d && decide (d.balance ≤ 0.01)) = true
      · rw [if_pos hA]
        exact ⟨le_refl _, le_refl _⟩
      · rw [if_neg hA]
        exact ⟨le_refl _, le_refl _⟩

end Debt

namespace Debt

/-- One step of the pooled allocation either stops, skips a bad index,
or applies a payment `x` with `0 ≤ x ≤ balance` to the debt at `i`. -/
theorem allocateGo_step (ms : ℤ) (i : ℕ) (rest : List ℕ) (budget : ℚ)
    (debts : List DState) (sched : List SEntry)
    (h : ∀ d ∈ debts, 0 ≤ d.balance) :
    (allocateGo ms (i :: rest) budget debts sched = (debts, sched)) ∨
    (allocateGo ms (i :: rest) budget debts sched
      = allocateGo ms rest budget debts sched) ∨
    (∃ d x, debts.get? i = some d ∧ 0 ≤ x ∧ x ≤ d.balance ∧
      ∃ budget2 sched2, allocateGo ms (i :: rest) budget debts sched
        = allocateGo ms rest budget2 (debts.set i (payTo d x)) sched2) := by
  by_cases hb : budget ≤ 0
  · left
    rw [allocateGo, if_pos hb]
  · cases hd : debts.get? i with
    | none =>
        right; left
        rw [allocateGo, if_neg hb, hd]
    | some d =>
        right; right
        refine ⟨d, min budget d.balance, rfl,
          le_min (le_of_lt (lt_of_not_le hb)) (h d (List.get?_mem hd)),
          min_le_right _ _,
          budget - min budget d.balance,
          updateLast sched d.id
            (extraUpd (min budget d.balance) (d.balance - min budget d.balance)),
          ?_⟩
        rw [allocateGo, if_neg hb, hd]
        rfl

/-- Pooled allocation keeps the invariant fields non-negative. -/
theorem allocateGo_inv (ms : ℤ) :
    ∀ (idxs : List ℕ) (budget : ℚ) (debts : List DState) (sched : List SEntry),
      (∀ d ∈ debts, 0 ≤ d.balance ∧ 0 ≤ d.rate ∧ 0 ≤ d.minimum ∧ 0 ≤ d.extra) →
      ∀ d ∈ (allocateGo ms idxs budget debts sched).1,
        0 ≤ d.balance ∧ 0 ≤ d.rate ∧ 0 ≤ d.minimum ∧ 0 ≤ d.extra
  | [], _, _, _, h => h
  | i :: rest, budget, debts, sched, h => by
      rcases allocateGo_step ms i rest budget debts sched (fun d hd => (h d hd).1)
        with hs | hs | ⟨d, x, hd, hx0, hxb, budget2, sched2, hs⟩
      · rw [hs]
        exact h
      · rw [hs]
        exact allocateGo_inv ms rest budget debts sched h
      · rw [hs]
        refine allocateGo_inv ms rest budget2 _ sched2 ?_
        intro y hy
        rcases List.mem_or_eq_of_mem_set hy with hy2 | hy2
        · exact h y hy2
        · subst hy2
          obtain ⟨hb, hr, hm, he⟩ := h d (List.get?_mem hd)
          refine ⟨?_, hr, hm, he⟩
          show 0 ≤ d.balance - x
          linarith

/-- Pooled allocation never decreases a debt's running totals. -/
theorem allocateGo_mono (ms : ℤ) :
    ∀ (idxs : List ℕ) (budget : ℚ) (debts : List DState) (sched : List SEntry),
      (∀ d ∈ debts, 0 ≤ d.balance) → ∀ k : ℕ,
      (debts.getD k default).totalInterest
          ≤ ((allocateGo ms idxs budget debts sched).1.getD k default).totalInterest ∧
      (debts.getD k default).totalPaid
          ≤ ((allocateGo ms idxs budget debts sched).1.getD k default).totalPaid
  | [], _, _, _, _, _ => ⟨le_refl _, le_refl _⟩
  | i :: rest, budget, debts, sched, h, k => by
      rcases allocateGo_step ms i rest budget debts sched h
        with hs | hs | ⟨d, x, hd, hx0, hxb, budget2, sched2, hs⟩
      · rw [hs]
        exact ⟨le_refl _, le_refl _⟩
      · rw [hs]
        exact allocateGo_mono ms rest budget debts sched h k
      · rw [hs]
        have hinv2 : ∀ y ∈ debts.set i (payTo d x), 0 ≤ y.balance := by
          intro y hy
          rcases List.mem_or_eq_of_mem_set hy with hy2 | hy2
          · exact h y hy2
          · subst hy2
            show 0 ≤ d.balance - x
            linarith [h d (List.get?_mem hd)]
        have IH := allocateGo_mono ms rest budget2 (debts.set i (payTo d x)) sched2 hinv2 k
        by_cases hk : k = i
        · subst hk
          have hklen : k < debts.length := by
            by_contra hh
            rw [List.get?_eq_none.mpr (le_of_not_lt hh)] at hd
            exact Option.noConfusion hd
          have h1 : debts.getD k default = d := by
            rw [List.getD_eq_get?, hd]
            rfl
          have h2 : (debts.set k (payTo d x)).getD k default = payTo d x := by
            rw [List.getD_eq_get?, List.get?_set_eq_of_lt _ hklen]
            rfl
          constructor
          · refine le_trans ?_ IH.1
            rw [h1, h2]
            exact le_refl _
          · refine le_trans ?_ IH.2
            rw [h1, h2]
            show d.totalPaid ≤ d.totalPaid + x
            linarith
        · have h2 : (debts.set i (payTo d x)).getD k default = debts.getD k default := by
            rw [List.getD_eq_get?, List.getD_eq_get?,
              List.get?_set_ne _ _ (fun hh => hk hh.symm)]
          constructor
          · refine le_trans ?_ IH.1
            rw [h2]
          · refine le_trans ?_ IH.2
            rw [h2]

end Debt

namespace Debt

/-- One step of the per-debt extra allocation either skips the index or
applies a payment `x` with `0 ≤ x ≤ balance` to the debt at `i`. -/
theorem ownExtraGo_step (ms : ℤ) (c : CalDate) (i : ℕ) (rest : List ℕ)
    (debts : List DState) (sched : List SEntry) :
    (ownExtraGo ms c (i :: rest) debts sched
      = ownExtraGo ms c rest debts sched) ∨
    (∃ d x, debts.get? i = some d ∧ 0 ≤ x ∧ x ≤ d.balance ∧
      ∃ sched2, ownExtraGo ms c (i :: rest) debts sched
        = ownExtraGo ms c rest (debts.set i (payTo d x)) sched2) := by
  cases hd : debts.get? i with
  | none =>
      left
      simp only [ownExtraGo, hd]
  | some d =>
      by_cases hA : isActive c d ∧ ¬ (d.balance ≤ 0.01)
      · by_cases hE : (if d.strategy = DebtStrategy.fixedPayment
            then d.monthlyPayment - d.minimum else d.extra) ≤ 0
        · left
          simp only [ownExtraGo, hd]
          rw [if_pos hA, if_pos hE]
        · right
          have hbal : (0 : ℚ) ≤ d.balance := by
            have := hA.2
            have h001 : (0.01 : ℚ) < d.balance := lt_of_not_le this
            linarith [show (0 : ℚ) < 0.01 by norm_num]
          refine ⟨d, min (if d.strategy = DebtStrategy.fixedPayment
              then d.monthlyPayment - d.minimum else d.extra) d.balance, rfl,
            le_min (le_of_lt (lt_of_not_le hE)) hbal,
            min_le_right _ _,
            updateLast sched d.id
              (extraUpd (min (if d.strategy = DebtStrategy.fixedPayment
                  then d.monthlyPayment - d.minimum else d.extra) d.balance)
                (d.balance - min (if d.strategy = DebtStrategy.fixedPayment
                  then d.monthlyPayment - d.minimum else d.extra) d.balance)),
            ?_⟩
          simp only [ownExtraGo, hd]
          rw [if_pos hA, if_neg hE]
          rfl
      · left
        simp only [ownExtraGo, hd]
        rw [if_neg hA]

/-- Per-debt extra allocation keeps the invariant fields non-negative. -/
theorem ownExtraGo_inv (ms : ℤ) (c : CalDate) :
    ∀ (idxs : List ℕ) (debts : List DState) (sched : List SEntry),
      (∀ d ∈ debts, 0 ≤ d.balance ∧ 0 ≤ d.rate ∧ 0 ≤ d.minimum ∧ 0 ≤ d.extra) →
      ∀ d ∈ (ownExtraGo ms c idxs debts sched).1,
        0 ≤ d.balance ∧ 0 ≤ d.rate ∧ 0 ≤ d.minimum ∧ 0 ≤ d.extra
  | [], _, _, h => h
  | i :: rest, debts, sched, h => by
      rcases ownExtraGo_step ms c i rest debts sched
        with hs | ⟨d, x, hd, hx0, hxb, sched2, hs⟩
      · rw [hs]
        exact ownExtraGo_inv ms c rest debts sched h
      · rw [hs]
        refine ownExtraGo_inv ms c rest _ sched2 ?_
        intro y hy
        rcases List.mem_or_eq_of_mem_set hy with hy2 | hy2
        · exact h y hy2
        · subst hy2
          obtain ⟨hb, hr, hm, he⟩ := h d (List.get?_mem hd)
          refine ⟨?_, hr, hm, he⟩
          show 0 ≤ d.balance - x
          linarith

/-- Per-debt extra allocation never decreases a debt's running totals. -/
theorem ownExtraGo_mono (ms : ℤ) (c : CalDate) :
    ∀ (idxs : List ℕ) (debts : List DState) (sched : List SEntry), ∀ k : ℕ,
      (debts.getD k default).totalInterest
          ≤ ((ownExtraGo ms c idxs debts sched).1.getD k default).totalInterest ∧
      (debts.getD k default).totalPaid
          ≤ ((ownExtraGo ms c idxs debts sched).1.getD k default).totalPaid
  | [], _, _, _ => ⟨le_refl _, le_refl _⟩
  | i :: rest, debts, sched, k => by
      rcases ownExtraGo_step ms c i rest debts sched
        with hs | ⟨d, x, hd, hx0, hxb, sched2, hs⟩
      · rw [hs]
        exact ownExtraGo_mono ms c rest debts sched k
      · rw [hs]
        have IH := ownExtraGo_mono ms c rest (debts.set i (payTo d x)) sched2 k
        by_cases hk : k = i
        · subst hk
          have hklen : k < debts.length := by
            by_contra hh
            rw [List.get?_eq_none.mpr (le_of_not_lt hh)] at hd
            exact Option.noConfusion hd
          have h1 : debts.getD k default = d := by
            rw [List.getD_eq_get?, hd]
            rfl
          have h2 : (debts.set k (payTo d x)).getD k default = payTo d x := by
            rw [List.getD_eq_get?, List.get?_set_eq_of_lt _ hklen]
            rfl
          constructor
          · refine le_trans ?_ IH.1
            rw [h1, h2]
            exact le_refl _
          · refine le_trans ?_ IH.2
            rw [h1, h2]
            show d.totalPaid ≤ d.totalPaid + x
            linarith
        · have h2 : (debts.set i (payTo d x)).getD k default = debts.getD k default := by
            rw [List.getD_eq_get?, List.getD_eq_get?,
              List.get?_set_ne _ _ (fun hh => hk hh.symm)]
          constructor
          · refine le_trans ?_ IH.1
            rw [h2]
          · refine le_trans ?_ IH.2
            rw [h2]

end Debt

namespace Debt

/-- One month of the payoff loop keeps the invariant fields
non-negative. -/
theorem stepMonth_inv (e : CalDate) (p f : Bool) (B : ℚ) (m : ℕ) (st : RunState)
    (h : ∀ d ∈ st.debts, 0 ≤ d.balance ∧ 0 ≤ d.rate ∧ 0 ≤ d.minimum ∧ 0 ≤ d.extra) :
    ∀ d ∈ (stepMonth e p f B m st).debts,
      0 ≤ d.balance ∧ 0 ≤ d.rate ∧ 0 ≤ d.minimum ∧ 0 ≤ d.extra := by
  simp only [stepMonth]
  refine markPaidOff_inv _ _ _ _ ?_
  split
  · exact allocateGo_inv _ _ _ _ _
      (payMinimums_inv _ _ _ (accrue_inv _ _ h))
  · exact ownExtraGo_inv _ _ _ _ _
      (payMinimums_inv _ _ _ (accrue_inv _ _ h))

/-- One month of the payoff loop never decreases any debt's running
totals. -/
theorem stepMonth_mono (e : CalDate) (p f : Bool) (B : ℚ) (m : ℕ) (st : RunState)
    (h : ∀ d ∈ st.debts, 0 ≤ d.balance ∧ 0 ≤ d.rate ∧ 0 ≤ d.minimum ∧ 0 ≤ d.extra)
    (k : ℕ) :
    (st.debts.getD k default).totalInterest
        ≤ ((stepMonth e p f B m st).debts.getD k default).totalInterest ∧
    (st.debts.getD k default).totalPaid
        ≤ ((stepMonth e p f B m st).debts.getD k default).totalPaid := by
  have hinv1 := accrue_inv (e.addMonths (m : ℤ)) st.debts h
  have hinv2 := payMinimums_inv (monthLabel (e.addMonths (m : ℤ)))
    (e.addMonths (m : ℤ)) _ hinv1
  have hm1 := accrue_mono (e.addMonths (m : ℤ)) st.debts
    (fun d hd => ⟨(h d hd).1, (h d hd).2.1⟩) k
  have hm2 := payMinimums_mono (monthLabel (e.addMonths (m : ℤ)))
    (e.addMonths (m : ℤ)) (accrue (e.addMonths (m : ℤ)) st.debts)
    (fun d hd => ⟨(hinv1 d hd).1, (hinv1 d hd).2.2.1⟩) k
  simp only [stepMonth]
  split
  · refine ⟨le_trans hm1.1 (le_trans hm2.1 (le_trans
      (allocateGo_mono _ _ _ _ _ (fun d hd => (hinv2 d hd).1) k).1
      (markPaidOff_mono _ _ _ _ k).1)), le_trans hm1.2 (le_trans hm2.2 (le_trans
      (allocateGo_mono _ _ _ _ _ (fun d hd => (hinv2 d hd).1) k).2
      (markPaidOff_mono _ _ _ _ k).2))⟩
  · exact ⟨le_trans hm1.1 (le_trans hm2.1 (le_trans
      (ownExtraGo_mono _ _ _ _ _ k).1
      (markPaidOff_mono _ _ _ _ k).1)), le_trans hm1.2 (le_trans hm2.2 (le_trans
      (ownExtraGo_mono _ _ _ _ _ k).2
      (markPaidOff_mono _ _ _ _ k).2))⟩

/-- The month loop keeps the invariant fields non-negative. -/
theorem runLoop_inv (e : CalDate) (p f : Bool) (B : ℚ) :
    ∀ (fuel m : ℕ) (st : RunState),
      (∀ d ∈ st.debts, 0 ≤ d.balance ∧ 0 ≤ d.rate ∧ 0 ≤ d.minimum ∧ 0 ≤ d.extra) →
      ∀ d ∈ (runLoop e p f B fuel m st).debts,
        0 ≤ d.balance ∧ 0 ≤ d.rate ∧ 0 ≤ d.minimum ∧ 0 ≤ d.extra
  | 0, _, _, h => h
  | fuel + 1, m, st, h => by
      rw [runLoop]
      by_cases hE : (st.debts.filter fun d =>
          isActive (e.addMonths (m : ℤ)) d).isEmpty = true
      · rw [if_pos hE]
        exact h
      · rw [if_neg hE]
        exact runLoop_inv e p f B fuel (m + 1) _ (stepMonth_inv e p f B m st h)

/-- The month loop never decreases any debt's running totals, relative
to its starting state. -/
theorem runLoop_ge (e : CalDate) (p f : Bool) (B : ℚ) :
    ∀ (fuel m : ℕ) (st : RunState),
      (∀ d ∈ st.debts, 0 ≤ d.balance ∧ 0 ≤ d.rate ∧ 0 ≤ d.minimum ∧ 0 ≤ d.extra) →
      ∀ k : ℕ,
      (st.debts.getD k default).totalInterest
          ≤ ((runLoop e p f B fuel m st).debts.getD k default).totalInterest ∧
      (st.debts.getD k default).totalPaid
          ≤ ((runLoop e p f B fuel m st).debts.getD k default).totalPaid
  | 0, _, _, _, _ => ⟨le_refl _, le_refl _⟩
  | fuel + 1, m, st, h, k => by
      rw [runLoop]
      by_cases hE : (st.debts.filter fun d =>
          isActive (e.addMonths (m : ℤ)) d).isEmpty = true
      · rw [if_pos hE]
        exact ⟨le_refl _, le_refl _⟩
      · rw [if_neg hE]
        have h1 := stepMonth_mono e p f B m st h k
        have h2 := runLoop_ge e p f B fuel (m + 1) (stepMonth e p f B m st)
          (stepMonth_inv e p f B m st h) k
        exact ⟨le_trans h1.1 h2.1, le_trans h1.2 h2.2⟩

/-- Running the month loop longer never decreases any debt's running
totals. -/
theorem runLoop_mono (e : CalDate) (p f : Bool) (B : ℚ) :
    ∀ (fuel1 fuel2 m : ℕ) (st : RunState), fuel1 ≤ fuel2 →
      (∀ d ∈ st.debts, 0 ≤ d.balance ∧ 0 ≤ d.rate ∧ 0 ≤ d.minimum ∧ 0 ≤ d.extra) →
      ∀ k : ℕ,
      ((runLoop e p f B fuel1 m st).debts.getD k default).totalInterest
          ≤ ((runLoop e p f B fuel2 m st).debts.getD k default).totalInterest ∧
      ((runLoop e p f B fuel1 m st).debts.getD k default).totalPaid
          ≤ ((runLoop e p f B fuel2 m st).debts.getD k default).totalPaid
  | 0, fuel2, m, st, _, h, k => runLoop_ge e p f B fuel2 m st h k
  | fuel1 + 1, fuel2, m, st, h12, h, k => by
      cases fuel2 with
      | zero => exact absurd h12 (Nat.not_succ_le_zero fuel1)
      | succ fuel2 =>
          rw [runLoop, runLoop]
          by_cases hE : (st.debts.filter fun d =>
              isActive (e.addMonths (m : ℤ)) d).isEmpty = true
          · rw [if_pos hE, if_pos hE]
            exact ⟨le_refl _, le_refl _⟩
          · rw [if_neg hE, if_neg hE]
            exact runLoop_mono e p f B fuel1 fuel2 (m + 1) _
              (Nat.succ_le_succ_iff.mp h12) (stepMonth_inv e p f B m st h) k

end Debt

namespace Debt

/-- C8: with a negative configured interest rate (-12% APR) the debt's
cumulative totalInterest strictly DECREASES month over month (-10 after
one month, -19.8 after two), refuting unconditional monotonicity; and
even on benign inputs the final schedule entry of a paid-off debt keeps
the rounded pre-payoff balance (0.01 here) while the debt state records
balance 0 at the payoff month, refuting the final-entry clause. -/
theorem claim_C8_counterexample :
    (((runLoop ⟨0, 1⟩ false false 0 1 0
        ⟨[], [initDebt ⟨0, 1000, -12, 10, 0, 0,
          DebtStrategy.minimumPayment, ⟨0, 1⟩⟩]⟩).debts.map
          fun d => d.totalInterest) = [(-10 : ℚ)]) ∧
    (((runLoop ⟨0, 1⟩ false false 0 2 0
        ⟨[], [initDebt ⟨0, 1000, -12, 10, 0, 0,
          DebtStrategy.minimumPayment, ⟨0, 1⟩⟩]⟩).debts.map
          fun d => d.totalInterest) = [(-99/5 : ℚ)]) ∧
    ((-99/5 : ℚ) < -10) ∧
    (((runLoop ⟨0, 1⟩ false false 0 1 0
        ⟨[], [initDebt ⟨0, 1001/100, 0, 10, 0, 0,
          DebtStrategy.minimumPayment, ⟨0, 1⟩⟩]⟩).sched.map
          fun e => e.endingBalance) = [(1/100 : ℚ)]) ∧
    (((runLoop ⟨0, 1⟩ false false 0 1 0
        ⟨[], [initDebt ⟨0, 1001/100, 0, 10, 0, 0,
          DebtStrategy.minimumPayment, ⟨0, 1⟩⟩]⟩).debts.map
          fun d => (d.paidOff, d.balance)) = [(true, (0 : ℚ))]) ∧
    ((1/100 : ℚ) ≠ 0) := by
  refine ⟨by decide, by decide, by norm_num, by decide, by decide, by norm_num⟩

/-- C8 (amended): when every debt plan has non-negative principal,
interest rate, minimum payment and extra payment, each debt's cumulative
totalInterest and totalPaid are monotonically non-decreasing as the
month loop runs longer, for any loop parameters. -/
theorem claim_C8_amended (plans : List DebtPlan)
    (hpos : ∀ q ∈ plans, 0 ≤ q.principalBalance ∧ 0 ≤ q.annualInterestRate ∧
      0 ≤ q.minimumPayment ∧ 0 ≤ q.extraPayment)
    (earliest : CalDate) (isPooled firstSnowball : Bool) (B : ℚ)
    (m1 m2 : ℕ) (h12 : m1 ≤ m2) (k : ℕ) :
    ((runLoop earliest isPooled firstSnowball B m1 0
        ⟨[], plans.map initDebt⟩).debts.getD k default).totalInterest
      ≤ ((runLoop earliest isPooled firstSnowball B m2 0
        ⟨[], plans.map initDebt⟩).debts.getD k default).totalInterest ∧
    ((runLoop earliest isPooled firstSnowball B m1 0
        ⟨[], plans.map initDebt⟩).debts.getD k default).totalPaid
      ≤ ((runLoop earliest isPooled firstSnowball B m2 0
        ⟨[], plans.map initDebt⟩).debts.getD k default).totalPaid := by
  refine runLoop_mono earliest isPooled firstSnowball B m1 m2 0
    ⟨[], plans.map initDebt⟩ h12 ?_ k
  intro d hd
  obtain ⟨q, hq, hfd⟩ := List.mem_map.mp hd
  obtain ⟨h1, h2, h3, h4⟩ := hpos q hq
  subst hfd
  refine ⟨h1, ?_, h3, h4⟩
  show 0 ≤ q.annualInterestRate / 100 / 12
  have : (0 : ℚ) ≤ q.annualInterestRate / 100 :=
    div_nonneg h2 (by norm_num)
  exact div_nonneg this (by norm_num)

/-- C8 (witness): a 12% snowball debt with pooled budget 50 — totals at
month 1 are bounded by those at month 2. -/
theorem claim_C8_witness :
    ((∀ q ∈ [(⟨0, 1000, 12, 10, 0, 50, DebtStrategy.snowball, ⟨0, 1⟩⟩ : DebtPlan)],
      0 ≤ q.principalBalance ∧ 0 ≤ q.annualInterestRate ∧
        0 ≤ q.minimumPayment ∧ 0 ≤ q.extraPayment) ∧ (1 : ℕ) ≤ 2) ∧
    (((runLoop ⟨0, 1⟩ true true 50 1 0
        ⟨[], [(⟨0, 1000, 12, 10, 0, 50, DebtStrategy.snowball, ⟨0, 1⟩⟩ :
          DebtPlan)].map initDebt⟩).debts.getD 0 default).totalInterest
      ≤ ((runLoop ⟨0, 1⟩ true true 50 2 0
        ⟨[], [(⟨0, 1000, 12, 10, 0, 50, DebtStrategy.snowball, ⟨0, 1⟩⟩ :
          DebtPlan)].map initDebt⟩).debts.getD 0 default).totalInterest ∧
    ((runLoop ⟨0, 1⟩ true true 50 1 0
        ⟨[], [(⟨0, 1000, 12, 10, 0, 50, DebtStrategy.snowball, ⟨0, 1⟩⟩ :
          DebtPlan)].map initDebt⟩).debts.getD 0 default).totalPaid
      ≤ ((runLoop ⟨0, 1⟩ true true 50 2 0
        ⟨[], [(⟨0, 1000, 12, 10, 0, 50, DebtStrategy.snowball, ⟨0, 1⟩⟩ :
          DebtPlan)].map initDebt⟩).debts.getD 0 default).totalPaid) :=
  ⟨⟨by decide, by decide⟩,
    claim_C8_amended [⟨0, 1000, 12, 10, 0, 50, DebtStrategy.snowball, ⟨0, 1⟩⟩]
      (by decide) ⟨0, 1⟩ true true 50 1 2 (by decide) 0⟩

end Debt
